import Mathlib

/-!
Verification development for the iziPortfolio Telegram-bot repository
(`telegram_bot/`: `bot.py`, `github_client.py`, `hugo_generator.py`,
`models.py`).

The Python code is shallowly embedded:

* Documents handled by the field mutator `update_hugo_toml_field`
  (`github_client.py`) are `List Char`; the three regex passes of the
  mutator (global strip of field lines, blank-run collapse, insertion
  after the `[params]` marker) are implemented as executable functions
  whose semantics follow the concrete regexes of the source.  The two
  `re.MULTILINE` patterns are interpreted line-wise, which agrees with
  the Python regex engine whenever a field assignment does not span a
  line break (`\s` crossing a newline inside `name \s* = \s* value`),
  which never happens for documents this program reads or writes.
* The dialog engine `dialog_flow` and `_finalize_profile_and_deploy`
  (`bot.py`) are pure functions from a session record and the incoming
  text to the new session record plus a list of effects (outgoing
  prompts, remote-update calls, workflow triggers, repository-file
  writes).  Outgoing prompt texts are abstracted to tags carrying their
  dynamic parts; collaborator calls are recorded as effects, and the
  publish collaborator's outcome is passed in as a parameter.
* `generate_hugo_toml` (`hugo_generator.py`) is embedded as the exact
  list of lines the Python code appends, joined with `"\n"`.
-/

/-! ## Character/line utilities -/

/-- Python's `\s` character class: `[ \t\n\r\f\v]`. -/
def pyWs (c : Char) : Bool :=
  c = ' ' || c = '\t' || c = '\n' || c = '\r' || c = '\x0c' || c = '\x0b'

/-- A quote character as used by the removal regex of
`update_hugo_toml_field`: `"` or `'`. -/
def isQuoteChar (c : Char) : Bool :=
  c = '"' || c = '\''

/-- Split a character list at newline characters; the document
`"a\nb"` becomes `[['a'], ['b']]`, and a trailing newline yields a
trailing empty line, matching Python string indexing conventions. -/
def splitNL : List Char → List (List Char)
  | [] => [[]]
  | c :: r =>
    match splitNL r with
    | [] => [[c]]
    | h :: t => if c = '\n' then [] :: h :: t else (c :: h) :: t

/-- Join lines with newline separators; left inverse of `splitNL` for
lists of newline-free lines. -/
def joinNL : List (List Char) → List Char
  | [] => []
  | [l] => l
  | l :: ls => l ++ '\n' :: joinNL ls

/-- A blank line: only whitespace characters (Python `\s`). -/
def isBlankLine (l : List Char) : Bool :=
  l.all pyWs

/-! ## Field mutator (`github_client.update_hugo_toml_field`)

The mutator's pure text transform:

1. `re.sub(rf'^\s*{field}\s*=\s*(?:["\'](?:[^"\']|\\["\'])*["\']|[^"\'\n]+)\s*$\n?', "", doc, flags=re.MULTILINE)`
2. `re.sub(r'\n{3,}', '\n\n', doc)`
3. search `(\[params\]\s*\n)`, sample indentation from the next 200
   characters with `\n(\s+)(?:[a-zA-Z_])`, and insert
   `f"{indent}{field} = {quoted}\n"` at the match end; raise
   `GitHubError` when the `[params]` pattern has no match.
-/

/-- Existential matcher for the quoted-value branch of the removal
regex, applied to the characters after the opening quote:
`(?:[^"\']|\\["\'])*["\']\s*$` (the trailing `\s*$` restricted to the
line is a whitespace-only rest). -/
def quotedTail : List Char → Bool
  | [] => false
  | [c] => isQuoteChar c
  | c :: c2 :: cs =>
    (isQuoteChar c && isBlankLine (c2 :: cs))
    || (!isQuoteChar c && quotedTail (c2 :: cs))
    || (c = '\\' && isQuoteChar c2 && quotedTail cs)

/-- Matcher for the value part after the `=` sign:
`\s*(?:["\'](?:[^"\']|\\["\'])*["\']|[^"\'\n]+)\s*$` on the rest of a
single line.  A quote-free nonempty rest is matched by the bare branch
(whose character class admits whitespace); otherwise only the quoted
branch can apply, starting at the first non-whitespace character. -/
def valueTail (cs : List Char) : Bool :=
  (!cs.isEmpty && cs.all (fun c => !isQuoteChar c))
  || (match cs.dropWhile pyWs with
      | c :: rs => isQuoteChar c && quotedTail rs
      | [] => false)

/-- Line-wise reading of the removal regex
`^\s*field\s*=\s*(?:…)\s*$` of `update_hugo_toml_field`: leading
whitespace, the literal (`re.escape`d) field name, whitespace, `=`,
then a matching value filling the rest of the line.  This reads the
pattern within a single line: a match whose quoted value spans a line
break (the class `[^"\']` admits a newline), or whose `\s*` runs cross
newlines other than through blank lines, is not represented here, so
theorems quantifying over arbitrary documents restrict themselves to
lines free of quote characters and of the field name, on which the two
readings coincide. -/
def fieldLineMatches (fieldPath : List Char) (l : List Char) : Bool :=
  let r := l.dropWhile pyWs
  fieldPath.isPrefixOf r &&
    (match (r.drop fieldPath.length).dropWhile pyWs with
     | '=' :: rest => valueTail rest
     | _ => false)

/-- Does dropping leading blank lines of `ls` reach a line matched by
the removal regex?  Used for the leading `^\s*` of the pattern, which
consumes whitespace-only lines directly preceding a matched field
line. -/
def nextIsFieldLine (fieldPath : List Char) (ls : List (List Char)) : Bool :=
  match ls.dropWhile isBlankLine with
  | l :: _ => fieldLineMatches fieldPath l
  | [] => false

/-- One left-to-right pass of the removal `re.sub`.  `prevField` is
true while the previously seen non-blank line was a removed field line:
the regex consumes, together with a matched line, the whitespace-only
lines directly before it (via the leading `^\s*`) and directly after it
(via the trailing `\s*$\n?` with backtracking), and a match ending at
the end of the string swallows the final newline, which in the line
representation leaves a single trailing empty line.  Like
`fieldLineMatches`, this is the line-wise fragment of the `re.sub`:
matches whose value spans a line break are outside its scope. -/
def stripFieldGo (fieldPath : List Char) (prevField : Bool) :
    List (List Char) → List (List Char)
  | [] => if prevField then [[]] else []
  | l :: rest =>
    if fieldLineMatches fieldPath l then stripFieldGo fieldPath true rest
    else if isBlankLine l then
      if prevField || nextIsFieldLine fieldPath rest then
        stripFieldGo fieldPath prevField rest
      else l :: stripFieldGo fieldPath false rest
    else l :: stripFieldGo fieldPath false rest

/-- The global strip pass (step 1 of the mutator). -/
def stripFieldLines (fieldPath : List Char) (ls : List (List Char)) :
    List (List Char) :=
  stripFieldGo fieldPath false ls

/-- Emit a run of `n` pending newline characters:
`re.sub(r'\n{3,}', '\n\n', …)` maps a maximal run of three or more
newlines to exactly two. -/
def emitNLRun (n : Nat) : List Char :=
  if 3 ≤ n then ['\n', '\n'] else List.replicate n '\n'

/-- Scanner for the newline-collapse pass; `pending` counts the
newline characters of the current maximal run. -/
def collapseGo (pending : Nat) : List Char → List Char
  | [] => emitNLRun pending
  | c :: rest =>
    if c = '\n' then collapseGo (pending + 1) rest
    else emitNLRun pending ++ c :: collapseGo 0 rest

/-- The blank-collapse pass (step 2 of the mutator). -/
def collapseNewlines (cs : List Char) : List Char :=
  collapseGo 0 cs

/-- The literal section marker `[params]`. -/
def paramsMarker : List Char :=
  "[params]".toList

/-- Does a line contain an occurrence of `[params]` followed only by
whitespace within the line?  The marker pattern `\[params\]\s*\n` is
unanchored, so any in-line occurrence qualifies as long as only
whitespace separates it from the end of the line. -/
def lineHasParamsMarker : List Char → Bool
  | [] => false
  | c :: rest =>
    (paramsMarker.isPrefixOf (c :: rest) &&
      isBlankLine ((c :: rest).drop paramsMarker.length))
    || lineHasParamsMarker rest

/-- Locate the leftmost match of `(\[params\]\s*\n)`: the first line
holding a whitespace-tailed `[params]` occurrence that is not the last
line of the document (the pattern needs a following newline
character).  Returns the lines before the marker line, the marker line
itself, and the lines after it. -/
def findParamsMarker :
    List (List Char) → Option (List (List Char) × List Char × List (List Char))
  | [] => none
  | l :: rest =>
    if lineHasParamsMarker l && !rest.isEmpty then some ([], l, rest)
    else
      match findParamsMarker rest with
      | some (p, m, s) => some (l :: p, m, s)
      | none => none

/-- `[a-zA-Z_]` of the indentation-sampling regex. -/
def isIndentFollower (c : Char) : Bool :=
  ('a' ≤ c && c ≤ 'z') || ('A' ≤ c && c ≤ 'Z') || c = '_'

/-- `re.search(r'\n(\s+)(?:[a-zA-Z_])', window)`: the first newline
followed by a nonempty maximal whitespace run whose next character is a
letter or underscore; the captured run is the indentation. -/
def findIndent : List Char → Option (List Char)
  | [] => none
  | c :: rest =>
    if c = '\n' then
      let w := rest.takeWhile pyWs
      if !w.isEmpty &&
          (match rest.drop w.length with
           | c2 :: _ => isIndentFollower c2
           | [] => false) then
        some w
      else findIndent rest
    else findIndent rest

/-- `_toml_string`'s escaping (identical in `github_client.py` and
`hugo_generator.py`): backslash and double quote are escaped, a newline
becomes literal `\n`, carriage returns are dropped.  The sequential
`str.replace` calls of the source are equivalent to this per-character
map because the replacements introduce no character that a later
replacement rewrites. -/
def escapeToml : List Char → List Char
  | [] => []
  | c :: r =>
    (if c = '\\' then ['\\', '\\']
     else if c = '"' then ['\\', '"']
     else if c = '\n' then ['\\', 'n']
     else if c = '\r' then []
     else [c]) ++ escapeToml r

/-- `_toml_string`: quote the escaped value. -/
def tomlString (v : List Char) : List Char :=
  '"' :: (escapeToml v ++ ['"'])

/-- The inserted text `f"{indent}{field_path} = {new_value}"` (its
trailing `"\n"` is the line separator of the line representation). -/
def fieldLineText (indent fieldPath v : List Char) : List Char :=
  indent ++ fieldPath ++ (' ' :: '=' :: ' ' :: tomlString v)

/-- Step 3 of the mutator: insert the new field line at the end of the
marker match.  The greedy `\s*\n` of the marker pattern ends after the
last newline of the whitespace run following `[params]`, i.e. after the
whitespace-only lines directly following the marker line; when the
document ends in that whitespace run, the match ends after the last
newline inside it, i.e. before the final blank line.  The indentation
window is the 200 characters following the insertion point. -/
def insertIntoParams (fieldPath v : List Char) (p : List (List Char))
    (m : List Char) (s : List (List Char)) : List (List Char) :=
  let bs := s.takeWhile isBlankLine
  match s.dropWhile isBlankLine with
  | r :: rs =>
    let window := (joinNL (r :: rs)).take 200
    let indent := (findIndent window).getD ("  ".toList)
    p ++ m :: (bs ++ splitNL (fieldLineText indent fieldPath v) ++ r :: rs)
  | [] =>
    let lastBlank := (bs.getLast?).getD []
    let window := lastBlank.take 200
    let indent := (findIndent window).getD ("  ".toList)
    p ++ m :: (bs.dropLast ++ splitNL (fieldLineText indent fieldPath v) ++ [lastBlank])

/-- The error text raised when the `[params]` pattern has no match. -/
def sectionNotFoundError : List Char :=
  "Could not find [params] section in hugo.toml".toList

/-- The pure text transform of `update_hugo_toml_field`: strip all
existing occurrences of the field, collapse newline runs, insert the
freshly quoted value after the `[params]` marker; fail when the marker
pattern does not match. -/
def update_hugo_toml_field_text (fieldPath v doc : List Char) :
    Except (List Char) (List Char) :=
  let ls1 := stripFieldLines fieldPath (splitNL doc)
  let ls2 := splitNL (collapseNewlines (joinNL ls1))
  match findParamsMarker ls2 with
  | some (p, m, s) => Except.ok (joinNL (insertIntoParams fieldPath v p m s))
  | none => Except.error sectionNotFoundError

/-- Convenience wrapper on `String`s. -/
def setFieldText (fieldPath v doc : String) : Except String String :=
  match update_hugo_toml_field_text fieldPath.toList v.toList doc.toList with
  | Except.ok cs => Except.ok (String.mk cs)
  | Except.error e => Except.error (String.mk e)

/-! ## Domain model (`models.py`) -/

/-- `models.CareerItem`. -/
structure CareerItem where
  company : String
  role : String
  start : String
  «end» : String
  description : String
  location : Option String := none
deriving DecidableEq, Repr

/-- `models.Course`. -/
structure Course where
  title : String
  url : Option String := none
  provider : Option String := none
  year : Option String := none
  status : Option String := none
  certificate : Option String := none
deriving DecidableEq, Repr

/-- `models.University`. -/
structure University where
  name : String
  year : String
  speciality : String
  degree : Option String := none
  note : Option String := none
deriving DecidableEq, Repr

/-- `models.Profile`. -/
structure Profile where
  github_username : String
  repo_name : String
  author_name : String
  author_surname : String
  author_grade : String
  author_city : String
  author_intro : String
  author_image_path : String := "/images/author.jpg"
  author_email : Option String := none
  author_telegram : Option String := none
  author_linkedin : Option String := none
  author_dribbble : Option String := none
  author_behance : Option String := none
  author_cv : Option String := none
  career_items : List CareerItem := []
  courses : List Course := []
  universities : List University := []
deriving DecidableEq, Repr

/-! ## Document generator (`hugo_generator.py`) -/

/-- `_toml_string` on `String`s. -/
def tomlStr (s : String) : String :=
  String.mk (tomlString s.toList)

/-- Python truthiness of an optional string: `None` and `""` are
falsy.  The generator's `if course.url:` style guards use this. -/
def optTruthy (o : Option String) : Bool :=
  match o with
  | none => false
  | some s => !s.isEmpty

/-- Lines appended for one `[[params.education.courses]]` sub-block:
required `title`, then each populated optional field in source order
(`url`, `provider`, `status`, `year`, `certificate`). -/
def courseBlockLines (c : Course) : List String :=
  ["", "  [[params.education.courses]]", "    title = " ++ tomlStr c.title]
  ++ (if optTruthy c.url then ["    url = " ++ tomlStr (c.url.getD "")] else [])
  ++ (if optTruthy c.provider then ["    provider = " ++ tomlStr (c.provider.getD "")] else [])
  ++ (if optTruthy c.status then ["    status = " ++ tomlStr (c.status.getD "")] else [])
  ++ (if optTruthy c.year then ["    year = " ++ tomlStr (c.year.getD "")] else [])
  ++ (if optTruthy c.certificate then ["    certificate = " ++ tomlStr (c.certificate.getD "")] else [])

/-- Lines appended for one `[[params.education.universities]]`
sub-block. -/
def universityBlockLines (u : University) : List String :=
  ["", "  [[params.education.universities]]",
   "    name = " ++ tomlStr u.name,
   "    year = " ++ tomlStr u.year,
   "    speciality = " ++ tomlStr u.speciality]
  ++ (if optTruthy u.degree then ["    degree = " ++ tomlStr (u.degree.getD "")] else [])
  ++ (if optTruthy u.note then ["    note = " ++ tomlStr (u.note.getD "")] else [])

/-- Lines appended for one `[[params.career.items]]` sub-block. -/
def careerBlockLines (item : CareerItem) : List String :=
  ["", "  [[params.career.items]]",
   "    company = " ++ tomlStr item.company,
   "    role = " ++ tomlStr item.role]
  ++ (if optTruthy item.location then ["    location = " ++ tomlStr (item.location.getD "")] else [])
  ++ ["    start = " ++ tomlStr item.start,
      "    end = " ++ tomlStr item.«end»,
      "    description = " ++ tomlStr item.description]

/-- Concatenate the sub-blocks of a collection, in order. -/
def blocksOf {α : Type} (f : α → List String) : List α → List String
  | [] => []
  | x :: xs => f x ++ blocksOf f xs

/-- The flat `[params]` lines in the fixed `flat_keys` order; absent
optional contacts render as `""` via `profile.author_x or ""` in
`profile_to_hugo_params`. -/
def flatParamsLines (p : Profile) : List String :=
  ["  description = " ++ tomlStr "Кейсы и портфолио",
   "  author_name = " ++ tomlStr p.author_name,
   "  author_surname = " ++ tomlStr p.author_surname,
   "  author_grade = " ++ tomlStr p.author_grade,
   "  author_city = " ++ tomlStr p.author_city,
   "  author_intro = " ++ tomlStr p.author_intro,
   "  author_image = " ++ tomlStr p.author_image_path,
   "  author_email = " ++ tomlStr (p.author_email.getD ""),
   "  author_telegram = " ++ tomlStr (p.author_telegram.getD ""),
   "  author_linkedin = " ++ tomlStr (p.author_linkedin.getD ""),
   "  author_dribbble = " ++ tomlStr (p.author_dribbble.getD ""),
   "  author_behance = " ++ tomlStr (p.author_behance.getD ""),
   "  author_cv = " ++ tomlStr (p.author_cv.getD "")]

/-- The exact sequence of lines `generate_hugo_toml` appends. -/
def generateHugoTomlLines (p : Profile) : List String :=
  ["baseURL = \"/\"",
   "title = \"Портфолио\"",
   "languageCode = \"ru-ru\"",
   "defaultContentLanguage = \"ru\"",
   "",
   "[params]"]
  ++ flatParamsLines p
  ++ ["", "  [params.education]"]
  ++ blocksOf courseBlockLines p.courses
  ++ blocksOf universityBlockLines p.universities
  ++ ["", "  [params.career]"]
  ++ blocksOf careerBlockLines p.career_items
  ++ ["",
      "[outputs]",
      "  home = [\"HTML\", \"RSS\"]",
      "  section = [\"HTML\"]",
      "",
      "[taxonomies]",
      "  # optional later: tag = \"tags\"",
      ""]

/-- `generate_hugo_toml`: `"\n".join(lines)`. -/
def generate_hugo_toml (p : Profile) : String :=
  String.intercalate "\n" (generateHugoTomlLines p)

/-! ## Dialog engine (`bot.py`)

`UserSession` mirrors the dataclass; Python dictionaries are
insertion-ordered association lists.  `dialog_flow` and
`_finalize_profile_and_deploy` become pure functions returning the new
session and the chronological list of effects (outgoing prompts,
collaborator calls, repository-info file writes).  Prompt texts are
abstracted to tags carrying their dynamic parts.  Collaborator calls
are recorded as effects and assumed to succeed
(`update_hugo_toml_field` and `ensure_workflow_and_trigger` raise only
on network failures caught by the surrounding `try`); the publish
collaborator `apply_profile_to_repo`'s outcome is a parameter. -/

/-- `UserSession` of `bot.py`. -/
structure UserSession where
  github_token : Option String := none
  github_username : Option String := none
  repo_name : Option String := none
  profile_data : List (String × String) := []
  career_items : List (List (String × String)) := []
  universities : List (List (String × String)) := []
  courses : List (List (String × String)) := []
  author_image_bytes : Option (List UInt8) := none
  step : String := "github_username"
  pending_career : List (String × String) := []
  pending_university : List (String × String) := []
  pending_course : List (String × String) := []
  update_mode : Bool := false
  update_field : Option String := none
deriving DecidableEq, Repr

/-- Lookup in an insertion-ordered dictionary. -/
def dictGet (d : List (String × String)) (k : String) : Option String :=
  match d.find? (fun kv => kv.1 = k) with
  | some kv => some kv.2
  | none => none

/-- `d[k] = v` on an insertion-ordered dictionary. -/
def dictSet (d : List (String × String)) (k v : String) : List (String × String) :=
  match d with
  | [] => [(k, v)]
  | kv :: rest => if kv.1 = k then (k, v) :: rest else kv :: dictSet rest k v

/-- `d.pop(k, None)`'s effect on the dictionary. -/
def dictPop (d : List (String × String)) (k : String) : List (String × String) :=
  d.filter (fun kv => !(kv.1 = k))

/-- Python falsiness of an optional string (`None` or `""`). -/
def optFalsy (o : Option String) : Bool :=
  match o with
  | none => true
  | some s => s.isEmpty

/-- Python falsiness of the optional image bytes (`None` or `b""`). -/
def bytesFalsy (o : Option (List UInt8)) : Bool :=
  match o with
  | none => true
  | some b => b.isEmpty

/-- Python's `str.strip()` restricted to ASCII whitespace. -/
def pyStrip (s : String) : String :=
  String.mk (((s.toList.dropWhile pyWs).reverse.dropWhile pyWs).reverse)

/-- Python's `str.lower()` restricted to ASCII letters; the Cyrillic
affirmation tokens compared against are already lowercase. -/
def lowerAscii (s : String) : String :=
  String.mk (s.toList.map (fun c =>
    if 'A' ≤ c && c ≤ 'Z' then Char.ofNat (c.toNat + 32) else c))

set_option maxHeartbeats 1600000 in
/-- Outgoing prompt tags of `dialog_flow`, `_start_dialog` and
`_finalize_profile_and_deploy`, in correspondence with the
`message.answer(...)` calls of the source; dynamic parts are carried as
arguments. -/
inductive BotMsg where
  | askUsername
  | askTokenExisting
  | creatingNew
  | useUpdateCommand
  | cancelledChoice
  | tokenReceivedUpdateMenu
  | updateCancelled
  | askNewName
  | askNewGrade
  | askNewCity
  | askNewIntro
  | askContactChoice
  | askNewPhoto
  | askContactValue (label : String)
  | noFieldSelected
  | askSurnameUpdate
  | contactDeleted (fieldName : String)
  | contactUpdated (fieldName : String)
  | changesApplied
  | nameSurnameUpdated
  | fieldUpdatedFull (fieldName : String)
  | existingRepoChoice
  | askToken
  | useExistingRepo
  | askRepoNameNew
  | cancelledUsernameChoice
  | askAuthorName
  | askRepoName
  | repoNamed
  | askSurname
  | askGrade
  | askCity
  | askIntro
  | askEmail
  | askTelegram
  | askLinkedin
  | askDribbble
  | askBehance
  | askCv
  | askPhoto
  | askCareerRole
  | askCareerLocation
  | askCareerStart
  | askCareerEnd
  | askCareerDescription
  | askCareerMore
  | askNextCompany
  | askUniversityName
  | askUniversityYear
  | askUniversitySpeciality
  | askUniversityDegree
  | askUniversityNote
  | askUniversityMore
  | askNextUniversity
  | askCourseTitle
  | askCourseUrl
  | askCourseProvider
  | askCourseYearOrStatus
  | askCourseCertificate
  | askCourseMore
  | askNextCourse
  | desynchronized
  | finalizeMissingGithub
  | finalizeMissingPhoto
  | finalizeMissingField (fieldName : String)
  | deploying
  | githubApiError (e : String)
  | publishSuccess (url : String)
deriving Repr

/-- Effects of one `dialog_flow` invocation, in chronological order. -/
inductive BotEff where
  | answer (m : BotMsg)
  | updateFieldCall (fieldName value : String)
  | workflowTrigger
  | publishCall
  | saveRepoInfo (userId githubUsername repoName : String)
  | removeSavedRepo (userId : String)
deriving Repr

/-- One record of the durable `user_repos.json` mapping (values read
back with `.get`, hence optional). -/
structure RepoEntry where
  github_username : Option String := none
  repo_name : Option String := none
deriving DecidableEq, Repr

/-- Lookup of `str(user_id)` in the durable mapping. -/
def repoLookup (file : List (String × RepoEntry)) (k : String) : Option RepoEntry :=
  (file.find? (fun kv => kv.1 = k)).map (fun kv => kv.2)

/-- Required-key access `pd["k"]`; a missing key is the `KeyError`
naming that key (the surrounding message quotes it as `'k'`). -/
def requireKey (d : List (String × String)) (k : String) : Except String String :=
  match dictGet d k with
  | some v => Except.ok v
  | none => Except.error k

/-- Assembly of one `CareerItem` inside the `Profile(...)` call, with
the source's key order (`company`, `role`, `location`, `start`, `end`,
`description`). -/
def mkCareerItem (item : List (String × String)) : Except String CareerItem := do
  let company ← requireKey item "company"
  let role ← requireKey item "role"
  let location := dictGet item "location"
  let start ← requireKey item "start"
  let stop ← requireKey item "end"
  let description ← requireKey item "description"
  Except.ok { company := company, role := role, location := location,
              start := start, «end» := stop, description := description }

/-- Assembly of one `Course` (only `title` is a required access). -/
def mkCourse (item : List (String × String)) : Except String Course := do
  let title ← requireKey item "title"
  Except.ok { title := title, url := dictGet item "url",
              provider := dictGet item "provider", year := dictGet item "year",
              status := dictGet item "status",
              certificate := dictGet item "certificate" }

/-- Assembly of one `University` (`name`, `year`, `speciality`
required). -/
def mkUniversity (item : List (String × String)) : Except String University := do
  let name ← requireKey item "name"
  let year ← requireKey item "year"
  let speciality ← requireKey item "speciality"
  Except.ok { name := name, year := year, speciality := speciality,
              degree := dictGet item "degree", note := dictGet item "note" }

/-- The `Profile(...)` construction of `_finalize_profile_and_deploy`:
keyword arguments are evaluated in source order, so the first missing
required key raises the `KeyError` that is reported. -/
def mkProfile (user repo : String) (s : UserSession) : Except String Profile := do
  let an ← requireKey s.profile_data "author_name"
  let asur ← requireKey s.profile_data "author_surname"
  let agrade ← requireKey s.profile_data "author_grade"
  let acity ← requireKey s.profile_data "author_city"
  let aintro ← requireKey s.profile_data "author_intro"
  let career ← s.career_items.mapM mkCareerItem
  let courses ← s.courses.mapM mkCourse
  let universities ← s.universities.mapM mkUniversity
  Except.ok { github_username := user, repo_name := repo,
              author_name := an, author_surname := asur,
              author_grade := agrade, author_city := acity,
              author_intro := aintro,
              author_email := dictGet s.profile_data "author_email",
              author_telegram := dictGet s.profile_data "author_telegram",
              author_linkedin := dictGet s.profile_data "author_linkedin",
              author_dribbble := dictGet s.profile_data "author_dribbble",
              author_behance := dictGet s.profile_data "author_behance",
              author_cv := dictGet s.profile_data "author_cv",
              career_items := career, courses := courses,
              universities := universities }

/-- `_finalize_profile_and_deploy`: guard the GitHub credentials and
the photo, assemble the `Profile`, invoke the publish collaborator,
and on success persist the repo info and reset the transient session
fields, keeping `github_token`, `github_username` and `repo_name`. -/
def finalize_profile_and_deploy (userId : String)
    (publishResult : Except String String) (s : UserSession) :
    UserSession × List BotEff :=
  if optFalsy s.github_token || optFalsy s.github_username || optFalsy s.repo_name then
    (s, [BotEff.answer BotMsg.finalizeMissingGithub])
  else if bytesFalsy s.author_image_bytes then
    (s, [BotEff.answer BotMsg.finalizeMissingPhoto])
  else
    match mkProfile ((s.github_username).getD "") ((s.repo_name).getD "") s with
    | Except.error k => (s, [BotEff.answer (BotMsg.finalizeMissingField k)])
    | Except.ok profile =>
      match publishResult with
      | Except.error e =>
        (s, [BotEff.answer BotMsg.deploying, BotEff.publishCall,
             BotEff.answer (BotMsg.githubApiError e)])
      | Except.ok url =>
        ({ s with step := "github_username", profile_data := [],
                  career_items := [], universities := [], courses := [],
                  author_image_bytes := none, update_mode := false },
         [BotEff.answer BotMsg.deploying, BotEff.publishCall,
          BotEff.saveRepoInfo userId profile.github_username profile.repo_name,
          BotEff.answer (BotMsg.publishSuccess url)])

/-- `_start_dialog`. -/
def startDialog (s : UserSession) : UserSession × List BotEff :=
  if !optFalsy s.github_username && !optFalsy s.repo_name then
    ({ s with step := "github_token" }, [BotEff.answer BotMsg.askTokenExisting])
  else
    ({ s with step := "github_username" }, [BotEff.answer BotMsg.askUsername])

/-- The `field_map` of the contact-update menu. -/
def contactFieldOf (label : String) : Option String :=
  if label = "📧 Email" then some "author_email"
  else if label = "💬 Telegram" then some "author_telegram"
  else if label = "💼 LinkedIn" then some "author_linkedin"
  else if label = "🎨 Dribbble" then some "author_dribbble"
  else if label = "🖼️ Behance" then some "author_behance"
  else if label = "📄 CV" then some "author_cv"
  else none

/-- The six contact field names of the update sub-flow. -/
def sixContactFields : List String :=
  ["author_email", "author_telegram", "author_linkedin",
   "author_dribbble", "author_behance", "author_cv"]

/-- The value-handling dispatch of the update sub-flow (the `try`
block guarded by `session.step.startswith("update_")`), keyed on
`session.update_field` first and only then on `session.step`. -/
def handleUpdateValue (s : UserSession) (text : String) (fieldName : String) :
    UserSession × List BotEff :=
  if fieldName = "author_name" then
    ({ s with step := "update_author_surname",
              profile_data := dictSet s.profile_data "temp_name" text },
     [BotEff.answer BotMsg.askSurnameUpdate])
  else if sixContactFields.contains fieldName then
    ({ s with update_mode := false, update_field := none, step := "github_username" },
     (if text = "-" then
        [BotEff.updateFieldCall fieldName "", BotEff.answer (BotMsg.contactDeleted fieldName)]
      else
        [BotEff.updateFieldCall fieldName text, BotEff.answer (BotMsg.contactUpdated fieldName)])
     ++ [BotEff.workflowTrigger, BotEff.answer BotMsg.changesApplied])
  else if s.step = "update_author_surname" then
    ({ s with profile_data := dictPop s.profile_data "temp_name",
              update_mode := false, update_field := none, step := "github_username" },
     [BotEff.updateFieldCall "author_name" ((dictGet s.profile_data "temp_name").getD ""),
      BotEff.updateFieldCall "author_surname" text,
      BotEff.answer BotMsg.nameSurnameUpdated, BotEff.workflowTrigger,
      BotEff.answer BotMsg.changesApplied])
  else
    ({ s with update_mode := false, update_field := none, step := "github_username" },
     [BotEff.updateFieldCall fieldName text, BotEff.workflowTrigger,
      BotEff.answer (BotMsg.fieldUpdatedFull fieldName)])

/-- Python's `str.startswith`, on the character lists of the two
strings (kernel-reducible, unlike `String.startsWith`). -/
def strStartsWith (s p : String) : Bool :=
  p.toList.isPrefixOf s.toList

/-- `dialog_flow` of `bot.py`: route one incoming text message by the
session's `step` (and `update_mode`), in the source's order of
early-returning branches; the final fallback answers the
"dialog desynchronized" prompt.  `userId` is `str(message.from_user.id)`,
`repoFile` the durable `user_repos.json` content read by
`_load_repo_info`, and `publishResult` the outcome of the publish
collaborator used at finalization. -/
def dialog_flow (userId : String) (repoFile : List (String × RepoEntry))
    (publishResult : Except String String) (s : UserSession)
    (rawText : String) : UserSession × List BotEff :=
  let text := pyStrip rawText
  if s.step = "start_choice" && text = "🔄 Создать новое портфолио" then
    let s1 := { s with github_token := none, github_username := none, repo_name := none }
    let r := startDialog s1
    (r.1, [BotEff.removeSavedRepo userId, BotEff.answer BotMsg.creatingNew] ++ r.2)
  else if s.step = "start_choice" && text = "✏️ Обновить существующее (/update)" then
    ({ s with step := "github_username" }, [BotEff.answer BotMsg.useUpdateCommand])
  else if s.step = "start_choice" && text = "❌ Отмена" then
    ({ s with step := "github_username" }, [BotEff.answer BotMsg.cancelledChoice])
  else if s.step = "update_need_token" then
    ({ s with github_token := some text, update_mode := true, step := "update_menu" },
     [BotEff.answer BotMsg.tokenReceivedUpdateMenu])
  else if s.update_mode && text = "❌ Отмена" then
    ({ s with update_mode := false, update_field := none, step := "github_username" },
     [BotEff.answer BotMsg.updateCancelled])
  else if s.update_mode && s.step = "update_menu" && text = "👤 Имя и фамилия" then
    ({ s with step := "update_author_name", update_field := some "author_name" },
     [BotEff.answer BotMsg.askNewName])
  else if s.update_mode && s.step = "update_menu" && text = "💼 Грейд / роль" then
    ({ s with step := "update_author_grade", update_field := some "author_grade" },
     [BotEff.answer BotMsg.askNewGrade])
  else if s.update_mode && s.step = "update_menu" && text = "📍 Город" then
    ({ s with step := "update_author_city", update_field := some "author_city" },
     [BotEff.answer BotMsg.askNewCity])
  else if s.update_mode && s.step = "update_menu" && text = "📝 Интро" then
    ({ s with step := "update_author_intro", update_field := some "author_intro" },
     [BotEff.answer BotMsg.askNewIntro])
  else if s.update_mode && s.step = "update_menu" && text = "📧 Контакты" then
    ({ s with step := "update_contacts_menu" }, [BotEff.answer BotMsg.askContactChoice])
  else if s.update_mode && s.step = "update_menu" && text = "📸 Фото" then
    ({ s with step := "update_author_photo" }, [BotEff.answer BotMsg.askNewPhoto])
  else if s.update_mode && s.step = "update_contacts_menu" && (contactFieldOf text).isSome then
    let f := (contactFieldOf text).getD ""
    ({ s with update_field := some f, step := "update_" ++ f },
     [BotEff.answer (BotMsg.askContactValue text)])
  else if s.update_mode && strStartsWith s.step "update_" then
    match s.update_field with
    | none => (s, [BotEff.answer BotMsg.noFieldSelected])
    | some fieldName => handleUpdateValue s text fieldName
  else if optFalsy s.github_username && s.step = "github_username" && text = "" then
    startDialog s
  else if s.step = "github_username" then
    let s1 := { s with github_username := some text }
    match repoLookup repoFile userId with
    | some entry =>
      if entry.github_username = some text then
        ({ s1 with repo_name := entry.repo_name, step := "github_username_choice" },
         [BotEff.answer BotMsg.existingRepoChoice])
      else
        ({ s1 with step := "github_token" }, [BotEff.answer BotMsg.askToken])
    | none =>
      ({ s1 with step := "github_token" }, [BotEff.answer BotMsg.askToken])
  else if s.step = "github_username_choice" && text = "✅ Использовать существующий" then
    ({ s with step := "github_token" }, [BotEff.answer BotMsg.useExistingRepo])
  else if s.step = "github_username_choice" && text = "🆕 Создать новый" then
    ({ s with repo_name := none, step := "repo_name" },
     [BotEff.answer BotMsg.askRepoNameNew])
  else if s.step = "github_username_choice" && text = "❌ Отмена" then
    ({ s with step := "github_username", github_username := none, repo_name := none },
     [BotEff.answer BotMsg.cancelledUsernameChoice])
  else if s.step = "github_token" then
    let s1 := { s with github_token := some text }
    if optTruthy s.repo_name then
      ({ s1 with step := "author_name" }, [BotEff.answer BotMsg.askAuthorName])
    else
      ({ s1 with step := "repo_name" }, [BotEff.answer BotMsg.askRepoName])
  else if s.step = "repo_name" then
    ({ s with repo_name := some text, step := "github_token" },
     [BotEff.answer BotMsg.repoNamed])
  else if s.step = "author_name" then
    ({ s with profile_data := dictSet s.profile_data "author_name" text,
              step := "author_surname" }, [BotEff.answer BotMsg.askSurname])
  else if s.step = "author_surname" then
    ({ s with profile_data := dictSet s.profile_data "author_surname" text,
              step := "author_grade" }, [BotEff.answer BotMsg.askGrade])
  else if s.step = "author_grade" then
    ({ s with profile_data := dictSet s.profile_data "author_grade" text,
              step := "author_city" }, [BotEff.answer BotMsg.askCity])
  else if s.step = "author_city" then
    ({ s with profile_data := dictSet s.profile_data "author_city" text,
              step := "author_intro" }, [BotEff.answer BotMsg.askIntro])
  else if s.step = "author_intro" then
    ({ s with profile_data := dictSet s.profile_data "author_intro" text,
              step := "contacts_email" }, [BotEff.answer BotMsg.askEmail])
  else if s.step = "contacts_email" then
    ({ s with profile_data := if text = "-" then s.profile_data
                              else dictSet s.profile_data "author_email" text,
              step := "contacts_telegram" }, [BotEff.answer BotMsg.askTelegram])
  else if s.step = "contacts_telegram" then
    ({ s with profile_data := if text = "-" then s.profile_data
                              else dictSet s.profile_data "author_telegram" text,
              step := "contacts_linkedin" }, [BotEff.answer BotMsg.askLinkedin])
  else if s.step = "contacts_linkedin" then
    ({ s with profile_data := if text = "-" then s.profile_data
                              else dictSet s.profile_data "author_linkedin" text,
              step := "contacts_dribbble" }, [BotEff.answer BotMsg.askDribbble])
  else if s.step = "contacts_dribbble" then
    ({ s with profile_data := if text = "-" then s.profile_data
                              else dictSet s.profile_data "author_dribbble" text,
              step := "contacts_behance" }, [BotEff.answer BotMsg.askBehance])
  else if s.step = "contacts_behance" then
    ({ s with profile_data := if text = "-" then s.profile_data
                              else dictSet s.profile_data "author_behance" text,
              step := "contacts_cv" }, [BotEff.answer BotMsg.askCv])
  else if s.step = "contacts_cv" then
    ({ s with profile_data := if text = "-" then s.profile_data
                              else dictSet s.profile_data "author_cv" text,
              step := "author_photo" }, [BotEff.answer BotMsg.askPhoto])
  else if s.step = "career_company" then
    ({ s with pending_career := [("company", text)], step := "career_role" },
     [BotEff.answer BotMsg.askCareerRole])
  else if s.step = "career_role" then
    ({ s with pending_career := dictSet s.pending_career "role" text,
              step := "career_location" }, [BotEff.answer BotMsg.askCareerLocation])
  else if s.step = "career_location" then
    ({ s with pending_career := if text = "-" then s.pending_career
                                else dictSet s.pending_career "location" text,
              step := "career_start" }, [BotEff.answer BotMsg.askCareerStart])
  else if s.step = "career_start" then
    ({ s with pending_career := dictSet s.pending_career "start" text,
              step := "career_end" }, [BotEff.answer BotMsg.askCareerEnd])
  else if s.step = "career_end" then
    ({ s with pending_career := dictSet s.pending_career "end" text,
              step := "career_description" }, [BotEff.answer BotMsg.askCareerDescription])
  else if s.step = "career_description" then
    ({ s with career_items := s.career_items ++ [dictSet s.pending_career "description" text],
              pending_career := [], step := "career_more" },
     [BotEff.answer BotMsg.askCareerMore])
  else if s.step = "career_more" then
    if ["да", "yes", "y"].contains (lowerAscii text) then
      ({ s with step := "career_company" }, [BotEff.answer BotMsg.askNextCompany])
    else
      ({ s with step := "edu_university_name" }, [BotEff.answer BotMsg.askUniversityName])
  else if s.step = "edu_university_name" then
    ({ s with pending_university := [("name", text)], step := "edu_university_year" },
     [BotEff.answer BotMsg.askUniversityYear])
  else if s.step = "edu_university_year" then
    ({ s with pending_university := dictSet s.pending_university "year" text,
              step := "edu_university_speciality" },
     [BotEff.answer BotMsg.askUniversitySpeciality])
  else if s.step = "edu_university_speciality" then
    ({ s with pending_university := dictSet s.pending_university "speciality" text,
              step := "edu_university_degree" },
     [BotEff.answer BotMsg.askUniversityDegree])
  else if s.step = "edu_university_degree" then
    ({ s with pending_university := if text = "-" then s.pending_university
                                    else dictSet s.pending_university "degree" text,
              step := "edu_university_note" }, [BotEff.answer BotMsg.askUniversityNote])
  else if s.step = "edu_university_note" then
    ({ s with universities := s.universities ++
                [if text = "-" then s.pending_university
                 else dictSet s.pending_university "note" text],
              pending_university := [], step := "edu_university_more" },
     [BotEff.answer BotMsg.askUniversityMore])
  else if s.step = "edu_university_more" then
    if ["да", "yes", "y"].contains (lowerAscii text) then
      ({ s with step := "edu_university_name" }, [BotEff.answer BotMsg.askNextUniversity])
    else
      ({ s with step := "edu_course_title" }, [BotEff.answer BotMsg.askCourseTitle])
  else if s.step = "edu_course_title" then
    if ["нет", "no", "none"].contains (lowerAscii text) then
      finalize_profile_and_deploy userId publishResult s
    else
      ({ s with pending_course := [("title", text)], step := "edu_course_url" },
       [BotEff.answer BotMsg.askCourseUrl])
  else if s.step = "edu_course_url" then
    ({ s with pending_course := if text = "-" then s.pending_course
                                else dictSet s.pending_course "url" text,
              step := "edu_course_provider" }, [BotEff.answer BotMsg.askCourseProvider])
  else if s.step = "edu_course_provider" then
    ({ s with pending_course := dictSet s.pending_course "provider" text,
              step := "edu_course_year_or_status" },
     [BotEff.answer BotMsg.askCourseYearOrStatus])
  else if s.step = "edu_course_year_or_status" then
    ({ s with pending_course := dictSet s.pending_course "status" text,
              step := "edu_course_certificate" },
     [BotEff.answer BotMsg.askCourseCertificate])
  else if s.step = "edu_course_certificate" then
    ({ s with courses := s.courses ++
                [if text = "-" then s.pending_course
                 else dictSet s.pending_course "certificate" text],
              pending_course := [], step := "edu_course_more" },
     [BotEff.answer BotMsg.askCourseMore])
  else if s.step = "edu_course_more" then
    if ["да", "yes", "y"].contains (lowerAscii text) then
      ({ s with step := "edu_course_title" }, [BotEff.answer BotMsg.askNextCourse])
    else
      finalize_profile_and_deploy userId publishResult s
  else
    (s, [BotEff.answer BotMsg.desynchronized])

/-! ## Durable repo-info store (`bot._load_repo_info`) -/

/-- JSON values as produced by `json.load` (object keys are always
Python `str`s). -/
inductive JsonVal where
  | str (s : String)
  | num (n : Int)
  | bool (b : Bool)
  | null
  | arr (xs : List JsonVal)
  | obj (kvs : List (String × JsonVal))
deriving Repr

/-- Every outcome of reading `user_repos.json` from the file system:
no file, an unreadable file (open/read raises), content that is not
valid JSON (`json.load` raises), or a parsed JSON value. -/
inductive RepoFileOutcome where
  | missing
  | unreadable
  | invalidJson
  | parsed (j : JsonVal)

/-- `_load_repo_info`: `{}` when the file is missing; any exception of
the `try` block (unreadable file, invalid JSON, or `.items()` on a
non-object value) yields `{}`; on a parsed object the comprehension
`{str(k): v for k, v in data.items()}` keeps every entry, with `str(k)`
the identity on the `str` keys `json.load` produces. -/
def load_repo_info : RepoFileOutcome → List (String × JsonVal)
  | RepoFileOutcome.missing => []
  | RepoFileOutcome.unreadable => []
  | RepoFileOutcome.invalidJson => []
  | RepoFileOutcome.parsed j =>
    match j with
    | JsonVal.obj kvs => kvs.map (fun kv => (kv.1, kv.2))
    | _ => []

/-! ## Theorems: finalization (`_finalize_profile_and_deploy`) -/

/-- Witness session for the finalization theorems. -/
def sessionAtCourses : UserSession :=
  { github_token := some "tok", github_username := some "alice",
    repo_name := some "portfolio",
    profile_data := [("author_name", "Ann"), ("author_surname", "Lee"),
                     ("author_grade", "Designer"), ("author_city", "Berlin")],
    author_image_bytes := some [1, 2, 3],
    step := "edu_course_more" }

/-- Witness session for C5: all required data collected. -/
def sessionComplete : UserSession :=
  { github_token := some "tok", github_username := some "alice",
    repo_name := some "portfolio",
    profile_data := [("author_name", "Ann"), ("author_surname", "Lee"),
                     ("author_grade", "Designer"), ("author_city", "Berlin"),
                     ("author_intro", "Hi there.")],
    author_image_bytes := some [1, 2, 3],
    step := "edu_course_more" }

/-- The profile `sessionComplete` assembles to. -/
def profileComplete : Profile :=
  { github_username := "alice", repo_name := "portfolio",
    author_name := "Ann", author_surname := "Lee",
    author_grade := "Designer", author_city := "Berlin",
    author_intro := "Hi there." }

/-- Session of a user who chose the compound name-and-surname entry of
the update menu and already answered the first (first-name) prompt:
`dialog_flow` stored the answer under `temp_name`, moved the cursor to
`update_author_surname`, and left `update_field` at `author_name`. -/
def sessionAwaitingSurname : UserSession :=
  { github_token := some "tok", github_username := some "alice",
    repo_name := some "portfolio",
    profile_data := [("temp_name", "Ann")],
    step := "update_author_surname", update_mode := true,
    update_field := some "author_name" }

/-- Session at the linear-flow photo-capture gate. -/
def sessionAtPhotoGate : UserSession :=
  { github_token := some "tok", github_username := some "alice",
    repo_name := some "portfolio",
    profile_data := [("author_name", "Ann")],
    step := "author_photo" }

/-- Session of the update sub-flow awaiting a new e-mail value. -/
def sessionAwaitingEmail : UserSession :=
  { github_token := some "tok", github_username := some "alice",
    repo_name := some "portfolio",
    step := "update_author_email", update_mode := true,
    update_field := some "author_email" }

/-- The course sub-block header line. -/
def courseHdr : String := "  [[params.education.courses]]"

/-- The university sub-block header line. -/
def uniHdr : String := "  [[params.education.universities]]"

/-- The career sub-block header line. -/
def careerHdr : String := "  [[params.career.items]]"

/-- Any of the three repeatable sub-block headers. -/
def isSubBlockHeader (l : String) : Bool :=
  l = courseHdr || l = uniHdr || l = careerHdr

/-- Witness course with every optional field absent. -/
def courseWitness : Course := { title := "Course A" }

/-- Witness career item with no location. -/
def careerWitness : CareerItem :=
  { company := "Acme", role := "Engineer", start := "2020", «end» := "2021",
    description := "Built things" }

/-- Witness profile: one career entry, one course, no universities, all
optional contacts absent. -/
def profileWitness : Profile :=
  { github_username := "alice", repo_name := "portfolio",
    author_name := "Ann", author_surname := "Lee", author_grade := "Designer",
    author_city := "Berlin", author_intro := "Hi there.",
    career_items := [careerWitness], courses := [courseWitness] }

/-- The claim-side reading of "a line matching `F = ...`": optional
leading whitespace, the field name, whitespace, `=`, then anything. -/
def assignsField (fieldPath : List Char) (l : List Char) : Bool :=
  let r := l.dropWhile pyWs
  fieldPath.isPrefixOf r &&
    (match (r.drop fieldPath.length).dropWhile pyWs with
     | '=' :: _ => true
     | _ => false)

/-- The lines of the document after the strip and collapse passes, on
which the `[params]` marker search of `update_hugo_toml_field` runs. -/
def processedLines (fieldPath doc : List Char) : List (List Char) :=
  splitNL (collapseNewlines (joinNL (stripFieldLines fieldPath (splitNL doc))))

/-- Profile assembly names the first missing required key: with the
four earlier required scalars present and `author_intro` never set,
the `KeyError` is `author_intro`. -/
lemma mkProfile_missing_intro (user repo : String) (s : UserSession)
    (hn : (dictGet s.profile_data "author_name").isSome = true)
    (hs : (dictGet s.profile_data "author_surname").isSome = true)
    (hg : (dictGet s.profile_data "author_grade").isSome = true)
    (hc : (dictGet s.profile_data "author_city").isSome = true)
    (hi : dictGet s.profile_data "author_intro" = none) :
    mkProfile user repo s = Except.error "author_intro" := by
  obtain ⟨vn, hvn⟩ := Option.isSome_iff_exists.mp hn
  obtain ⟨vs, hvs⟩ := Option.isSome_iff_exists.mp hs
  obtain ⟨vg, hvg⟩ := Option.isSome_iff_exists.mp hg
  obtain ⟨vc, hvc⟩ := Option.isSome_iff_exists.mp hc
  simp only [mkProfile, requireKey, hvn, hvs, hvg, hvc, hi]
  rfl

/-- C4: when the GitHub fields and the photo are present but the
required scalar `author_intro` was never collected, finalization
reports a missing-field error naming exactly `author_intro` and
returns the session unchanged: the step cursor, `profile_data`, the
three collections and the image bytes all keep their values. -/
theorem finalize_missing_intro_reports_field_and_preserves_session
    (userId : String) (pub : Except String String) (s : UserSession)
    (htok : optFalsy s.github_token = false)
    (huser : optFalsy s.github_username = false)
    (hrepo : optFalsy s.repo_name = false)
    (himg : bytesFalsy s.author_image_bytes = false)
    (hn : (dictGet s.profile_data "author_name").isSome = true)
    (hs : (dictGet s.profile_data "author_surname").isSome = true)
    (hg : (dictGet s.profile_data "author_grade").isSome = true)
    (hc : (dictGet s.profile_data "author_city").isSome = true)
    (hi : dictGet s.profile_data "author_intro" = none) :
    finalize_profile_and_deploy userId pub s =
      (s, [BotEff.answer (BotMsg.finalizeMissingField "author_intro")]) := by
  simp [finalize_profile_and_deploy, htok, huser, hrepo, himg,
        mkProfile_missing_intro _ _ s hn hs hg hc hi]


/-- Witness for C4 at a concrete session missing only `author_intro`. -/
theorem finalize_missing_intro_witness :
    finalize_profile_and_deploy "7" (Except.ok "url") sessionAtCourses =
      (sessionAtCourses,
       [BotEff.answer (BotMsg.finalizeMissingField "author_intro")]) :=
  finalize_missing_intro_reports_field_and_preserves_session "7"
    (Except.ok "url") sessionAtCourses (by decide) (by decide) (by decide)
    (by decide) (by decide) (by decide) (by decide) (by decide) (by decide)

/-- C5: on a successful publish, finalization resets the step cursor
to `github_username` and clears `profile_data`, the three collections,
the image bytes and the update flag, while `github_token`,
`github_username`, `repo_name` (and all remaining fields, in
particular the pending scratch slots and `update_field`) keep the
values they had before. -/
theorem finalize_success_resets_transients_keeps_credentials
    (userId url : String) (s : UserSession) (pr : Profile)
    (htok : optFalsy s.github_token = false)
    (huser : optFalsy s.github_username = false)
    (hrepo : optFalsy s.repo_name = false)
    (himg : bytesFalsy s.author_image_bytes = false)
    (hp : mkProfile ((s.github_username).getD "") ((s.repo_name).getD "") s =
            Except.ok pr) :
    finalize_profile_and_deploy userId (Except.ok url) s =
      ({ s with step := "github_username", profile_data := [],
                career_items := [], universities := [], courses := [],
                author_image_bytes := none, update_mode := false },
       [BotEff.answer BotMsg.deploying, BotEff.publishCall,
        BotEff.saveRepoInfo userId pr.github_username pr.repo_name,
        BotEff.answer (BotMsg.publishSuccess url)]) ∧
    (finalize_profile_and_deploy userId (Except.ok url) s).1.github_token
        = s.github_token ∧
    (finalize_profile_and_deploy userId (Except.ok url) s).1.github_username
        = s.github_username ∧
    (finalize_profile_and_deploy userId (Except.ok url) s).1.repo_name
        = s.repo_name := by
  have h : finalize_profile_and_deploy userId (Except.ok url) s =
      ({ s with step := "github_username", profile_data := [],
                career_items := [], universities := [], courses := [],
                author_image_bytes := none, update_mode := false },
       [BotEff.answer BotMsg.deploying, BotEff.publishCall,
        BotEff.saveRepoInfo userId pr.github_username pr.repo_name,
        BotEff.answer (BotMsg.publishSuccess url)]) := by
    simp [finalize_profile_and_deploy, htok, huser, hrepo, himg, hp]
  exact ⟨h, by rw [h], by rw [h], by rw [h]⟩



/-- Witness for C5 at a concrete fully collected session. -/
theorem finalize_success_witness :
    finalize_profile_and_deploy "7" (Except.ok "https://alice.github.io/portfolio/")
        sessionComplete =
      ({ sessionComplete with step := "github_username", profile_data := [],
                              career_items := [], universities := [],
                              courses := [], author_image_bytes := none,
                              update_mode := false },
       [BotEff.answer BotMsg.deploying, BotEff.publishCall,
        BotEff.saveRepoInfo "7" profileComplete.github_username
          profileComplete.repo_name,
        BotEff.answer (BotMsg.publishSuccess "https://alice.github.io/portfolio/")]) ∧
    (finalize_profile_and_deploy "7"
        (Except.ok "https://alice.github.io/portfolio/") sessionComplete).1.github_token
      = sessionComplete.github_token ∧
    (finalize_profile_and_deploy "7"
        (Except.ok "https://alice.github.io/portfolio/") sessionComplete).1.github_username
      = sessionComplete.github_username ∧
    (finalize_profile_and_deploy "7"
        (Except.ok "https://alice.github.io/portfolio/") sessionComplete).1.repo_name
      = sessionComplete.repo_name :=
  finalize_success_resets_transients_keeps_credentials "7"
    "https://alice.github.io/portfolio/" sessionComplete profileComplete
    (by decide) (by decide) (by decide) (by decide) (by rfl)

/-! ## Theorems: update sub-flow and dialog routing (`dialog_flow`) -/


/-- C3: evaluating `dialog_flow` at the second (surname) answer shows
the defect: the dispatch tests `update_field == "author_name"` before
testing the `update_author_surname` step, and `update_field` is never
changed, so the surname answer re-enters the first-name branch — it
overwrites `temp_name` with the surname, asks for the surname again,
stays in update mode at the same step, and performs no remote update;
the surname branch with its two `update_hugo_toml_field` calls is
unreachable. -/
theorem dialog_flow_compound_name_never_updates :
    dialog_flow "7" [] (Except.ok "url") sessionAwaitingSurname "Lee" =
      ({ sessionAwaitingSurname with profile_data := [("temp_name", "Lee")] },
       [BotEff.answer BotMsg.askSurnameUpdate]) ∧
    (dialog_flow "7" [] (Except.ok "url") sessionAwaitingSurname "Lee").1.step
      = "update_author_surname" ∧
    (dialog_flow "7" [] (Except.ok "url") sessionAwaitingSurname "Lee").1.update_mode
      = true := by
  refine ⟨?_, ?_, ?_⟩ <;> rfl


/-- C6 counterexample: a text message in the `author_photo` state is
not silently ignored — `dialog_flow` has no `author_photo` branch, so
the message falls through to the desynchronized-dialog fallback and an
outgoing prompt is produced. -/
theorem text_in_photo_state_prompts :
    dialog_flow "7" [] (Except.ok "url") sessionAtPhotoGate "hello" =
      (sessionAtPhotoGate, [BotEff.answer BotMsg.desynchronized]) ∧
    (dialog_flow "7" [] (Except.ok "url") sessionAtPhotoGate "hello").2 ≠ [] := by
  have h : dialog_flow "7" [] (Except.ok "url") sessionAtPhotoGate "hello" =
      (sessionAtPhotoGate, [BotEff.answer BotMsg.desynchronized]) := rfl
  exact ⟨h, by rw [h]; exact List.cons_ne_nil _ _⟩

/-- C6 amended: for every session at the photo-capture gate outside
update mode, a text message leaves the session (cursor and all
collected data) unchanged, but it is not silent: the
desynchronized-dialog prompt is sent.  (The silent-ignore behaviour of
the source concerns unrelated photo messages in `handle_photo`, not
text messages.) -/
theorem text_in_photo_state_leaves_session_unchanged
    (userId : String) (repoFile : List (String × RepoEntry))
    (pub : Except String String) (s : UserSession) (rawText : String)
    (hstep : s.step = "author_photo") (hmode : s.update_mode = false) :
    dialog_flow userId repoFile pub s rawText =
      (s, [BotEff.answer BotMsg.desynchronized]) := by
  simp [dialog_flow, hstep, hmode]

/-- Witness for the amended C6 at a concrete session and text. -/
theorem text_in_photo_state_witness :
    sessionAtPhotoGate.step = "author_photo" ∧
    sessionAtPhotoGate.update_mode = false ∧
    dialog_flow "9" [] (Except.error "e") sessionAtPhotoGate "unrelated" =
      (sessionAtPhotoGate, [BotEff.answer BotMsg.desynchronized]) :=
  ⟨by decide, by decide,
   text_in_photo_state_leaves_session_unchanged "9" [] (Except.error "e")
     sessionAtPhotoGate "unrelated" (by decide) (by decide)⟩

/-- C9: loading the durable repo-info mapping is total over every
file-system outcome: a missing file, an unreadable file, invalid JSON
and non-object JSON all yield the empty mapping, and a parsed JSON
object yields exactly its string-keyed entries. -/
theorem load_repo_info_total_empty_on_failure (o : RepoFileOutcome) :
    load_repo_info o = [] ∨
      ∃ kvs, o = RepoFileOutcome.parsed (JsonVal.obj kvs) ∧
        load_repo_info o = kvs := by
  cases o with
  | missing => exact Or.inl rfl
  | unreadable => exact Or.inl rfl
  | invalidJson => exact Or.inl rfl
  | parsed j =>
    cases j with
    | str v => exact Or.inl rfl
    | num v => exact Or.inl rfl
    | bool v => exact Or.inl rfl
    | null => exact Or.inl rfl
    | arr xs => exact Or.inl rfl
    | obj kvs => exact Or.inr ⟨kvs, rfl, by simp [load_repo_info]⟩


/-- C10 counterexample: the incoming text is stripped before being
forwarded, so the input `" Paris "` (with surrounding whitespace) is
not passed verbatim to the remote update — the collaborator receives
`"Paris"`. -/
theorem contact_update_not_verbatim :
    dialog_flow "7" [] (Except.ok "url") sessionAwaitingEmail " Paris " =
      ({ sessionAwaitingEmail with update_mode := false, update_field := none,
                                   step := "github_username" },
       [BotEff.updateFieldCall "author_email" "Paris",
        BotEff.answer (BotMsg.contactUpdated "author_email"),
        BotEff.workflowTrigger, BotEff.answer BotMsg.changesApplied]) ∧
    ("Paris" : String) ≠ " Paris " :=
  ⟨by rfl, by decide⟩

/-- C10 amended: for each of the six contact fields in the update
sub-flow, an input whose stripped text is `"-"` invokes the remote
field update with the empty string, and any other input except the
cancel label invokes it with the stripped text (not the verbatim
message); either way the session leaves update mode. -/
theorem contact_update_strip_semantics
    (userId : String) (repoFile : List (String × RepoEntry))
    (pub : Except String String) (s : UserSession) (rawText f : String)
    (hf : f ∈ sixContactFields) (hmode : s.update_mode = true)
    (hstep : s.step = "update_" ++ f) (hfield : s.update_field = some f)
    (hcancel : pyStrip rawText ≠ "❌ Отмена") :
    dialog_flow userId repoFile pub s rawText =
      ({ s with update_mode := false, update_field := none,
                step := "github_username" },
       (if pyStrip rawText = "-" then
          [BotEff.updateFieldCall f "", BotEff.answer (BotMsg.contactDeleted f)]
        else
          [BotEff.updateFieldCall f (pyStrip rawText),
           BotEff.answer (BotMsg.contactUpdated f)])
       ++ [BotEff.workflowTrigger, BotEff.answer BotMsg.changesApplied]) := by
  fin_cases hf <;>
    simp_all +decide [dialog_flow, handleUpdateValue, sixContactFields,
                      strStartsWith, hcancel]

/-- Witness for the amended C10: clearing the Telegram contact with
`"-"`. -/
theorem contact_update_strip_witness :
    ("author_telegram" ∈ sixContactFields) ∧
    dialog_flow "7" [] (Except.ok "url")
        { sessionAwaitingEmail with step := "update_author_telegram",
                                    update_field := some "author_telegram" }
        "-" =
      ({ sessionAwaitingEmail with update_mode := false, update_field := none,
                                   step := "github_username" },
       [BotEff.updateFieldCall "author_telegram" "",
        BotEff.answer (BotMsg.contactDeleted "author_telegram"),
        BotEff.workflowTrigger, BotEff.answer BotMsg.changesApplied]) :=
  ⟨by decide,
   by
    have h := contact_update_strip_semantics "7" [] (Except.ok "url")
      { sessionAwaitingEmail with step := "update_author_telegram",
                                  update_field := some "author_telegram" }
      "-" "author_telegram" (by decide) (by decide) (by decide) (by decide)
      (by decide)
    simpa using h⟩

/-! ## Theorems: document generator (`generate_hugo_toml`) -/

/-- A string extending a non-prefix of `t` differs from `t`. -/
lemma append_ne_of_not_prefix (a x t : String)
    (h : a.toList.isPrefixOf t.toList = false) : a ++ x ≠ t := by
  intro he
  subst he
  have hp : a.toList.isPrefixOf (a ++ x).toList = true :=
    List.isPrefixOf_iff_prefix.mpr ⟨x.toList, rfl⟩
  rw [hp] at h
  exact Bool.noConfusion h





/-- Sub-block counting distributes over the collections. -/
lemma countP_blocksOf {α : Type} (p : String → Bool) (f : α → List String)
    (l : List α) :
    List.countP p (blocksOf f l) =
      (l.map (fun x => List.countP p (f x))).sum := by
  induction l with
  | nil => simp [blocksOf]
  | cons a t ih => simp [blocksOf, List.countP_append, ih]

/-- Membership in a concatenation of sub-blocks. -/
lemma mem_blocksOf {α : Type} (f : α → List String) {x : α} {l : List α}
    (hx : x ∈ l) {y : String} (hy : y ∈ f x) : y ∈ blocksOf f l := by
  induction l with
  | nil => cases hx
  | cons a t ih =>
    rcases List.mem_cons.mp hx with h | h
    · subst h
      exact List.mem_append.mpr (Or.inl hy)
    · exact List.mem_append.mpr (Or.inr (ih h))

/-- Each course sub-block holds exactly one course header and no other
sub-block header. -/
lemma courseBlock_header_counts (c : Course) :
    List.countP (fun l => l = courseHdr) (courseBlockLines c) = 1 ∧
    List.countP (fun l => l = uniHdr) (courseBlockLines c) = 0 ∧
    List.countP (fun l => l = careerHdr) (courseBlockLines c) = 0 ∧
    List.countP isSubBlockHeader (courseBlockLines c) = 1 := by
  have h1 := append_ne_of_not_prefix "    title = " (tomlStr c.title)
  have h2 := append_ne_of_not_prefix "    url = " (tomlStr (c.url.getD ""))
  have h3 := append_ne_of_not_prefix "    provider = " (tomlStr (c.provider.getD ""))
  have h4 := append_ne_of_not_prefix "    status = " (tomlStr (c.status.getD ""))
  have h5 := append_ne_of_not_prefix "    year = " (tomlStr (c.year.getD ""))
  have h6 := append_ne_of_not_prefix "    certificate = " (tomlStr (c.certificate.getD ""))
  refine ⟨?_, ?_, ?_, ?_⟩ <;>
    · simp only [courseBlockLines, isSubBlockHeader, List.countP_append,
                 List.countP_cons, List.countP_nil, apply_ite (List.countP _)]
      simp +decide [courseHdr, uniHdr, careerHdr, h1, h2, h3, h4, h5, h6]

/-- Each university sub-block holds exactly one university header and
no other sub-block header. -/
lemma universityBlock_header_counts (u : University) :
    List.countP (fun l => l = courseHdr) (universityBlockLines u) = 0 ∧
    List.countP (fun l => l = uniHdr) (universityBlockLines u) = 1 ∧
    List.countP (fun l => l = careerHdr) (universityBlockLines u) = 0 ∧
    List.countP isSubBlockHeader (universityBlockLines u) = 1 := by
  have h1 := append_ne_of_not_prefix "    name = " (tomlStr u.name)
  have h2 := append_ne_of_not_prefix "    year = " (tomlStr u.year)
  have h3 := append_ne_of_not_prefix "    speciality = " (tomlStr u.speciality)
  have h4 := append_ne_of_not_prefix "    degree = " (tomlStr (u.degree.getD ""))
  have h5 := append_ne_of_not_prefix "    note = " (tomlStr (u.note.getD ""))
  refine ⟨?_, ?_, ?_, ?_⟩ <;>
    · simp only [universityBlockLines, isSubBlockHeader, List.countP_append,
                 List.countP_cons, List.countP_nil, apply_ite (List.countP _)]
      simp +decide [courseHdr, uniHdr, careerHdr, h1, h2, h3, h4, h5]

/-- Each career sub-block holds exactly one career header and no other
sub-block header. -/
lemma careerBlock_header_counts (it : CareerItem) :
    List.countP (fun l => l = courseHdr) (careerBlockLines it) = 0 ∧
    List.countP (fun l => l = uniHdr) (careerBlockLines it) = 0 ∧
    List.countP (fun l => l = careerHdr) (careerBlockLines it) = 1 ∧
    List.countP isSubBlockHeader (careerBlockLines it) = 1 := by
  have h1 := append_ne_of_not_prefix "    company = " (tomlStr it.company)
  have h2 := append_ne_of_not_prefix "    role = " (tomlStr it.role)
  have h3 := append_ne_of_not_prefix "    location = " (tomlStr (it.location.getD ""))
  have h4 := append_ne_of_not_prefix "    start = " (tomlStr it.start)
  have h5 := append_ne_of_not_prefix "    end = " (tomlStr it.«end»)
  have h6 := append_ne_of_not_prefix "    description = " (tomlStr it.description)
  refine ⟨?_, ?_, ?_, ?_⟩ <;>
    · simp only [careerBlockLines, isSubBlockHeader, List.countP_append,
                 List.countP_cons, List.countP_nil, apply_ite (List.countP _)]
      simp +decide [courseHdr, uniHdr, careerHdr, h1, h2, h3, h4, h5, h6]

/-- The flat `[params]` block holds no sub-block header, whatever the
profile values. -/
lemma flatParams_no_header (p : Profile) (q : String → Bool)
    (hq : ∀ l, q l = true → l = courseHdr ∨ l = uniHdr ∨ l = careerHdr) :
    List.countP q (flatParamsLines p) = 0 := by
  rw [List.countP_eq_zero]
  intro l hl hql
  have hmem := hq l hql
  have key : ∀ a x : String, a.toList.isPrefixOf courseHdr.toList = false →
      a.toList.isPrefixOf uniHdr.toList = false →
      a.toList.isPrefixOf careerHdr.toList = false → a ++ x = l → False := by
    intro a x hc hu hk he
    subst he
    rcases hmem with h | h | h
    · exact append_ne_of_not_prefix a x courseHdr hc h
    · exact append_ne_of_not_prefix a x uniHdr hu h
    · exact append_ne_of_not_prefix a x careerHdr hk h
  simp only [flatParamsLines, List.mem_cons, List.not_mem_nil, or_false] at hl
  rcases hl with h|h|h|h|h|h|h|h|h|h|h|h|h <;>
    exact key _ _ (by decide) (by decide) (by decide) h.symm

/-- A mismatch inside the overlap makes `pre` a non-prefix of any
extension of `a`. -/
lemma isPrefixOf_append_false (p a x : List Char)
    (h : (p.take a.length).isPrefixOf a = false) :
    p.isPrefixOf (a ++ x) = false := by
  cases hb : p.isPrefixOf (a ++ x) with
  | false => rfl
  | true =>
    exfalso
    obtain ⟨t, ht⟩ := List.isPrefixOf_iff_prefix.mp hb
    have h1 : (p ++ t).take a.length = a := by
      rw [ht]
      exact List.take_left a x
    have h2 : (p ++ t).take a.length =
        p.take a.length ++ t.take (a.length - p.length) :=
      List.take_append_eq_append_take
    have h3 : p.take a.length <+: a :=
      ⟨t.take (a.length - p.length), by rw [← h2, h1]⟩
    rw [List.isPrefixOf_iff_prefix.mpr h3] at h
    exact Bool.noConfusion h

/-- `strStartsWith` version of `isPrefixOf_append_false`. -/
lemma strStartsWith_append_false (pre a x : String)
    (h : ((pre.toList).take (a.toList).length).isPrefixOf a.toList = false) :
    strStartsWith (a ++ x) pre = false :=
  isPrefixOf_append_false pre.toList a.toList x.toList h

/-- Sub-blocks each counting one: the collection's length. -/
lemma sum_countP_blocks_one {α : Type} (p : String → Bool)
    (f : α → List String) (l : List α)
    (h : ∀ x, List.countP p (f x) = 1) :
    List.countP p (blocksOf f l) = l.length := by
  induction l with
  | nil => simp [blocksOf]
  | cons a t ih => simp [blocksOf, List.countP_append, ih, h a, Nat.add_comm]

/-- Sub-blocks each counting zero: zero. -/
lemma sum_countP_blocks_zero {α : Type} (p : String → Bool)
    (f : α → List String) (l : List α)
    (h : ∀ x, List.countP p (f x) = 0) :
    List.countP p (blocksOf f l) = 0 := by
  induction l with
  | nil => simp [blocksOf]
  | cons a t ih => simp [blocksOf, List.countP_append, ih, h a]

set_option maxHeartbeats 1600000 in
/-- C7: for every profile with N career entries, M university entries
and K course entries, the generated document contains exactly K course
headers, M university headers and N career headers (so exactly
N + M + K repeatable sub-block headers); every course/university/career
entry contributes its required field lines with the profile's values;
each absent optional contact of the flat `[params]` block renders as a
line with an empty quoted string; and each absent optional field of a
sub-block (`url`, `provider`, `year`, `status`, `certificate`,
`degree`, `note`, `location`) contributes no line at all to its
sub-block. -/
theorem generate_hugo_toml_round_trip (p : Profile) :
    (List.countP (fun l => l = courseHdr) (generateHugoTomlLines p)
        = p.courses.length) ∧
    (List.countP (fun l => l = uniHdr) (generateHugoTomlLines p)
        = p.universities.length) ∧
    (List.countP (fun l => l = careerHdr) (generateHugoTomlLines p)
        = p.career_items.length) ∧
    (List.countP isSubBlockHeader (generateHugoTomlLines p)
        = p.career_items.length + p.universities.length + p.courses.length) ∧
    (∀ c ∈ p.courses,
        ("    title = " ++ tomlStr c.title) ∈ generateHugoTomlLines p) ∧
    (∀ u ∈ p.universities,
        ("    name = " ++ tomlStr u.name) ∈ generateHugoTomlLines p) ∧
    (∀ it ∈ p.career_items,
        ("    company = " ++ tomlStr it.company) ∈ generateHugoTomlLines p) ∧
    (p.author_email = none →
        "  author_email = \"\"" ∈ generateHugoTomlLines p) ∧
    (p.author_telegram = none →
        "  author_telegram = \"\"" ∈ generateHugoTomlLines p) ∧
    (p.author_linkedin = none →
        "  author_linkedin = \"\"" ∈ generateHugoTomlLines p) ∧
    (p.author_dribbble = none →
        "  author_dribbble = \"\"" ∈ generateHugoTomlLines p) ∧
    (p.author_behance = none →
        "  author_behance = \"\"" ∈ generateHugoTomlLines p) ∧
    (p.author_cv = none →
        "  author_cv = \"\"" ∈ generateHugoTomlLines p) ∧
    (∀ c ∈ p.courses, c.url = none →
        List.countP (fun l => strStartsWith l "    url = ")
          (courseBlockLines c) = 0) ∧
    (∀ c ∈ p.courses, c.provider = none →
        List.countP (fun l => strStartsWith l "    provider = ")
          (courseBlockLines c) = 0) ∧
    (∀ c ∈ p.courses, c.year = none →
        List.countP (fun l => strStartsWith l "    year = ")
          (courseBlockLines c) = 0) ∧
    (∀ c ∈ p.courses, c.status = none →
        List.countP (fun l => strStartsWith l "    status = ")
          (courseBlockLines c) = 0) ∧
    (∀ c ∈ p.courses, c.certificate = none →
        List.countP (fun l => strStartsWith l "    certificate = ")
          (courseBlockLines c) = 0) ∧
    (∀ u ∈ p.universities, u.degree = none →
        List.countP (fun l => strStartsWith l "    degree = ")
          (universityBlockLines u) = 0) ∧
    (∀ u ∈ p.universities, u.note = none →
        List.countP (fun l => strStartsWith l "    note = ")
          (universityBlockLines u) = 0) ∧
    (∀ it ∈ p.career_items, it.location = none →
        List.countP (fun l => strStartsWith l "    location = ")
          (careerBlockLines it) = 0) := by
  refine ⟨?_, ?_, ?_, ?_, ?_, ?_, ?_, ?_, ?_, ?_, ?_, ?_, ?_, ?_, ?_, ?_,
         ?_, ?_, ?_, ?_, ?_⟩
  · simp only [generateHugoTomlLines, List.countP_append]
    rw [flatParams_no_header p _ (fun l h => Or.inl (of_decide_eq_true h)),
        sum_countP_blocks_one _ _ _ (fun c => (courseBlock_header_counts c).1),
        sum_countP_blocks_zero _ _ _
          (fun u => (universityBlock_header_counts u).1),
        sum_countP_blocks_zero _ _ _
          (fun it => (careerBlock_header_counts it).1)]
    simp +decide [List.countP_cons, courseHdr]
  · simp only [generateHugoTomlLines, List.countP_append]
    rw [flatParams_no_header p _ (fun l h => Or.inr (Or.inl (of_decide_eq_true h))),
        sum_countP_blocks_zero _ _ _ (fun c => (courseBlock_header_counts c).2.1),
        sum_countP_blocks_one _ _ _
          (fun u => (universityBlock_header_counts u).2.1),
        sum_countP_blocks_zero _ _ _
          (fun it => (careerBlock_header_counts it).2.1)]
    simp +decide [List.countP_cons, uniHdr]
  · simp only [generateHugoTomlLines, List.countP_append]
    rw [flatParams_no_header p _ (fun l h => Or.inr (Or.inr (of_decide_eq_true h))),
        sum_countP_blocks_zero _ _ _ (fun c => (courseBlock_header_counts c).2.2.1),
        sum_countP_blocks_zero _ _ _
          (fun u => (universityBlock_header_counts u).2.2.1),
        sum_countP_blocks_one _ _ _
          (fun it => (careerBlock_header_counts it).2.2.1)]
    simp +decide [List.countP_cons, careerHdr]
  · simp only [generateHugoTomlLines, List.countP_append]
    rw [flatParams_no_header p isSubBlockHeader
          (fun l h => by
            have h2 := h
            simp only [isSubBlockHeader, Bool.or_eq_true, decide_eq_true_eq] at h2
            tauto),
        sum_countP_blocks_one _ _ _ (fun c => (courseBlock_header_counts c).2.2.2),
        sum_countP_blocks_one _ _ _
          (fun u => (universityBlock_header_counts u).2.2.2),
        sum_countP_blocks_one _ _ _
          (fun it => (careerBlock_header_counts it).2.2.2)]
    simp +decide [List.countP_cons, isSubBlockHeader, courseHdr, uniHdr, careerHdr]
    omega
  · intro c hc
    have hm : ("    title = " ++ tomlStr c.title) ∈
        blocksOf courseBlockLines p.courses :=
      mem_blocksOf _ hc (by simp [courseBlockLines])
    simp [generateHugoTomlLines, List.mem_append, hm]
  · intro u hu
    have hm : ("    name = " ++ tomlStr u.name) ∈
        blocksOf universityBlockLines p.universities :=
      mem_blocksOf _ hu (by simp [universityBlockLines])
    simp [generateHugoTomlLines, List.mem_append, hm]
  · intro it hit
    have hm : ("    company = " ++ tomlStr it.company) ∈
        blocksOf careerBlockLines p.career_items :=
      mem_blocksOf _ hit (by simp [careerBlockLines])
    simp [generateHugoTomlLines, List.mem_append, hm]
  · intro h
    have he : "  author_email = " ++ tomlStr ((p.author_email).getD "") =
        "  author_email = \"\"" := by rw [h]; rfl
    simp [generateHugoTomlLines, flatParamsLines, List.mem_append, ← he]
  · intro h
    have he : "  author_telegram = " ++ tomlStr ((p.author_telegram).getD "") =
        "  author_telegram = \"\"" := by rw [h]; rfl
    simp [generateHugoTomlLines, flatParamsLines, List.mem_append, ← he]
  · intro h
    have he : "  author_linkedin = " ++ tomlStr ((p.author_linkedin).getD "") =
        "  author_linkedin = \"\"" := by rw [h]; rfl
    simp [generateHugoTomlLines, flatParamsLines, List.mem_append, ← he]
  · intro h
    have he : "  author_dribbble = " ++ tomlStr ((p.author_dribbble).getD "") =
        "  author_dribbble = \"\"" := by rw [h]; rfl
    simp [generateHugoTomlLines, flatParamsLines, List.mem_append, ← he]
  · intro h
    have he : "  author_behance = " ++ tomlStr ((p.author_behance).getD "") =
        "  author_behance = \"\"" := by rw [h]; rfl
    simp [generateHugoTomlLines, flatParamsLines, List.mem_append, ← he]
  · intro h
    have he : "  author_cv = " ++ tomlStr ((p.author_cv).getD "") =
        "  author_cv = \"\"" := by rw [h]; rfl
    simp [generateHugoTomlLines, flatParamsLines, List.mem_append, ← he]
  · intro c _ h
    simp only [courseBlockLines, List.countP_append, List.countP_cons,
               List.countP_nil, apply_ite (List.countP _)]
    simp +decide [h, optTruthy, strStartsWith_append_false]
  · intro c _ h
    simp only [courseBlockLines, List.countP_append, List.countP_cons,
               List.countP_nil, apply_ite (List.countP _)]
    simp +decide [h, optTruthy, strStartsWith_append_false]
  · intro c _ h
    simp only [courseBlockLines, List.countP_append, List.countP_cons,
               List.countP_nil, apply_ite (List.countP _)]
    simp +decide [h, optTruthy, strStartsWith_append_false]
  · intro c _ h
    simp only [courseBlockLines, List.countP_append, List.countP_cons,
               List.countP_nil, apply_ite (List.countP _)]
    simp +decide [h, optTruthy, strStartsWith_append_false]
  · intro c _ h
    simp only [courseBlockLines, List.countP_append, List.countP_cons,
               List.countP_nil, apply_ite (List.countP _)]
    simp +decide [h, optTruthy, strStartsWith_append_false]
  · intro u _ h
    simp only [universityBlockLines, List.countP_append, List.countP_cons,
               List.countP_nil, apply_ite (List.countP _)]
    simp +decide [h, optTruthy, strStartsWith_append_false]
  · intro u _ h
    simp only [universityBlockLines, List.countP_append, List.countP_cons,
               List.countP_nil, apply_ite (List.countP _)]
    simp +decide [h, optTruthy, strStartsWith_append_false]
  · intro it _ h
    simp only [careerBlockLines, List.countP_append, List.countP_cons,
               List.countP_nil, apply_ite (List.countP _)]
    simp +decide [h, optTruthy, strStartsWith_append_false]




/-- Witness for C7 at a concrete profile (N = 1, M = 0, K = 1). -/
theorem generate_hugo_toml_round_trip_witness :
    List.countP isSubBlockHeader (generateHugoTomlLines profileWitness) = 2 ∧
    ("    title = " ++ tomlStr courseWitness.title) ∈
      generateHugoTomlLines profileWitness ∧
    "  author_email = \"\"" ∈ generateHugoTomlLines profileWitness ∧
    List.countP (fun l => strStartsWith l "    url = ")
      (courseBlockLines courseWitness) = 0 ∧
    List.countP (fun l => strStartsWith l "    location = ")
      (careerBlockLines careerWitness) = 0 := by
  have h := generate_hugo_toml_round_trip profileWitness
  exact ⟨h.2.2.2.1, h.2.2.2.2.1 courseWitness (by decide),
         h.2.2.2.2.2.2.2.1 (by decide),
         h.2.2.2.2.2.2.2.2.2.2.2.2.2.1 courseWitness (by decide) (by decide),
         h.2.2.2.2.2.2.2.2.2.2.2.2.2.2.2.2.2.2.2.2 careerWitness (by decide)
           (by decide)⟩

/-! ## Line/character infrastructure for the field-mutator proofs -/


/-- `splitNL` never returns the empty list. -/
lemma splitNL_ne_nil (cs : List Char) : splitNL cs ≠ [] := by
  cases cs with
  | nil => simp [splitNL]
  | cons c r =>
    simp only [splitNL]
    rcases h : splitNL r with _ | ⟨h1, t1⟩
    · simp
    · by_cases hc : c = '\n' <;> simp [hc]

/-- Lines produced by `splitNL` contain no newline. -/
lemma splitNL_no_nl (cs : List Char) : ∀ l ∈ splitNL cs, '\n' ∉ l := by
  induction cs with
  | nil => simp [splitNL]
  | cons c r ih =>
    intro l hl
    simp only [splitNL] at hl
    rcases h : splitNL r with _ | ⟨h1, t1⟩
    · exact absurd h (splitNL_ne_nil r)
    · rw [h] at hl
      by_cases hc : c = '\n'
      · simp only [hc, if_pos rfl] at hl
        rcases List.mem_cons.mp hl with h2 | h2
        · simp [h2]
        · exact ih l (h ▸ h2)
      · simp only [if_neg hc] at hl
        rcases List.mem_cons.mp hl with h2 | h2
        · subst h2
          intro hmem
          rcases List.mem_cons.mp hmem with h3 | h3
          · exact hc h3.symm
          · exact ih h1 (h ▸ List.mem_cons_self h1 t1) h3
        · exact ih l (h ▸ List.mem_cons.mpr (Or.inr h2))

/-- A newline-free character list is a single line. -/
lemma splitNL_of_no_nl (l : List Char) (h : '\n' ∉ l) : splitNL l = [l] := by
  induction l with
  | nil => rfl
  | cons c r ih =>
    have hc : c ≠ '\n' := fun he => h (by simp [he])
    have hr : splitNL r = [r] := ih (fun hm => h (List.mem_cons.mpr (Or.inr hm)))
    simp [splitNL, hr, hc]

/-- Splitting after a newline-free first line. -/
lemma splitNL_append_line (l cs : List Char) (h : '\n' ∉ l) :
    splitNL (l ++ '\n' :: cs) = l :: splitNL cs := by
  induction l with
  | nil =>
    simp only [List.nil_append, splitNL]
    rcases hs : splitNL cs with _ | ⟨h1, t1⟩
    · exact absurd hs (splitNL_ne_nil cs)
    · simp
  | cons c r ih =>
    have hc : c ≠ '\n' := fun he => h (by simp [he])
    have hr := ih (fun hm => h (List.mem_cons.mpr (Or.inr hm)))
    simp only [List.cons_append, splitNL, List.append_eq]
    rw [hr]
    simp [hc]

/-- `splitNL` is a left inverse of `joinNL` on nonempty lists of
newline-free lines. -/
lemma splitNL_joinNL (ls : List (List Char)) (hne : ls ≠ [])
    (h : ∀ l ∈ ls, '\n' ∉ l) : splitNL (joinNL ls) = ls := by
  induction ls with
  | nil => exact absurd rfl hne
  | cons l rest ih =>
    cases rest with
    | nil =>
      simp only [joinNL]
      exact splitNL_of_no_nl l (h l (List.mem_cons_self l []))
    | cons l2 rest2 =>
      have hj : joinNL (l :: l2 :: rest2) = l ++ '\n' :: joinNL (l2 :: rest2) := rfl
      rw [hj, splitNL_append_line l _ (h l (List.mem_cons_self l _)),
          ih (by simp) (fun x hx => h x (List.mem_cons.mpr (Or.inr hx)))]

/-- `emitNLRun` is a run of newlines. -/
lemma emitNLRun_eq_replicate (n : Nat) :
    ∃ m, emitNLRun n = List.replicate m '\n' ∧ (1 ≤ n → 1 ≤ m) := by
  by_cases h : 3 ≤ n
  · exact ⟨2, by simp [emitNLRun, h, List.replicate], by omega⟩
  · exact ⟨n, by simp [emitNLRun, h], fun hh => hh⟩

/-- Splitting a run of newlines prepended to a document. -/
lemma splitNL_replicate_nl (m : Nat) (cs : List Char) :
    splitNL (List.replicate m '\n' ++ cs) =
      List.replicate m [] ++ splitNL cs := by
  induction m with
  | zero => simp
  | succ k ih =>
    simp only [List.replicate_succ, List.cons_append, splitNL, List.append_eq]
    rw [ih]
    rcases hs : splitNL cs with _ | ⟨h1, t1⟩
    · exact absurd hs (splitNL_ne_nil cs)
    · cases k <;> simp [List.replicate_succ]

/-- Every line of a split run of newlines is empty. -/
lemma mem_splitNL_replicate (m : Nat) (l : List Char)
    (h : l ∈ splitNL (List.replicate m '\n')) : l = [] := by
  have h2 := splitNL_replicate_nl m []
  rw [List.append_nil] at h2
  rw [h2] at h
  rcases List.mem_append.mp h with h3 | h3
  · exact List.eq_of_mem_replicate h3
  · simpa [splitNL] using h3

/-- The collapse scanner passes a pending run plus a newline-free
nonempty chunk through. -/
lemma collapseGo_chunk (a : List Char) (ha : '\n' ∉ a) (p : Nat)
    (X : List Char) :
    collapseGo p (a ++ X) =
      (if a.isEmpty then collapseGo p X
       else emitNLRun p ++ a ++ collapseGo 0 X) := by
  induction a generalizing p with
  | nil => simp [collapseGo]
  | cons c r ih =>
    have hc : c ≠ '\n' := fun he => ha (by simp [he])
    have hr : '\n' ∉ r := fun hm => ha (List.mem_cons.mpr (Or.inr hm))
    simp only [List.cons_append, collapseGo, if_neg hc, List.isEmpty_cons,
               List.append_eq]
    rw [ih hr 0]
    by_cases he : r.isEmpty
    · have : r = [] := List.isEmpty_iff.mp he
      subst this
      simp [collapseGo, emitNLRun]
    · simp [he, emitNLRun]

/-- The collapse scanner accumulates leading newlines. -/
lemma collapseGo_nl_run (k p : Nat) (X : List Char) :
    collapseGo p (List.replicate k '\n' ++ X) = collapseGo (p + k) X := by
  induction k generalizing p with
  | zero => simp
  | succ n ih =>
    simp only [List.replicate_succ, List.cons_append, collapseGo, if_pos rfl,
               List.append_eq]
    rw [ih (p + 1)]
    ring_nf
    simp

/-- With at least one pending newline the collapsed text starts with a
newline, so its first line is empty. -/
lemma collapseGo_head_empty (cs : List Char) (p : Nat) (hp : 1 ≤ p) :
    ∃ t, splitNL (collapseGo p cs) = [] :: t := by
  induction cs generalizing p with
  | nil =>
    obtain ⟨m, hm, h1⟩ := emitNLRun_eq_replicate p
    have hm1 := h1 hp
    cases m with
    | zero => omega
    | succ k =>
      refine ⟨splitNL (List.replicate k '\n'), ?_⟩
      simp only [collapseGo, hm, List.replicate_succ, splitNL]
      rcases hs : splitNL (List.replicate k '\n') with _ | ⟨h1', t1'⟩
      · exact absurd hs (splitNL_ne_nil _)
      · simp
  | cons c r ih =>
    by_cases hc : c = '\n'
    · subst hc
      simp only [collapseGo, if_pos rfl]
      exact ih (p + 1) (by omega)
    · simp only [collapseGo, if_neg hc]
      obtain ⟨m, hm, h1⟩ := emitNLRun_eq_replicate p
      have hm1 := h1 hp
      cases m with
      | zero => omega
      | succ k =>
        rw [hm]
        refine ⟨splitNL (List.replicate k '\n' ++ c :: collapseGo 0 r), ?_⟩
        simp only [List.replicate_succ, List.cons_append, splitNL]
        rcases hs : splitNL (List.replicate k '\n' ++ c :: collapseGo 0 r)
          with _ | ⟨h1', t1'⟩
        · exact absurd hs (splitNL_ne_nil _)
        · simp

/-- Prepending a newline-free chunk to a document extends its first
line. -/
lemma splitNL_append_chunk (a Z : List Char) (hd : List Char)
    (tl : List (List Char)) (ha : '\n' ∉ a) (hZ : splitNL Z = hd :: tl) :
    splitNL (a ++ Z) = (a ++ hd) :: tl := by
  induction a with
  | nil => simpa using hZ
  | cons c r ih =>
    have hc : c ≠ '\n' := fun he => ha (by simp [he])
    have hr := ih (fun hm => ha (List.mem_cons.mpr (Or.inr hm)))
    simp only [List.cons_append, splitNL, List.append_eq]
    rw [hr]
    simp [hc]

/-- Small pending runs are emitted verbatim. -/
lemma emitNLRun_small (p : Nat) (hp : p ≤ 2) :
    emitNLRun p = List.replicate p '\n' := by
  simp only [emitNLRun]
  split
  · omega
  · rfl

/-- Every line of the collapsed document is an empty line or a line of
the original document: `re.sub(r'\n{3,}', '\n\n', …)` only shortens
runs of empty lines. -/
lemma mem_splitNL_collapseGo_joinNL (ls : List (List Char)) :
    ∀ (p : Nat), (∀ l ∈ ls, '\n' ∉ l) →
      ∀ l ∈ splitNL (collapseGo p (joinNL ls)), l = [] ∨ l ∈ ls := by
  induction ls with
  | nil =>
    intro p _ l hl
    obtain ⟨m, hm, _⟩ := emitNLRun_eq_replicate p
    simp only [joinNL, collapseGo, hm] at hl
    exact Or.inl (mem_splitNL_replicate m l hl)
  | cons a rest ih =>
    intro p hnl l hl
    rcases rest with _ | ⟨r0, rest'⟩
    · rcases ha : a with _ | ⟨c, a'⟩
      · subst ha
        obtain ⟨m, hm, _⟩ := emitNLRun_eq_replicate p
        simp only [joinNL, collapseGo, hm] at hl
        exact Or.inl (mem_splitNL_replicate m l hl)
      · subst ha
        have hanl : '\n' ∉ c :: a' := hnl _ (List.mem_cons_self _ _)
        have hj : joinNL [c :: a'] = c :: a' := rfl
        rw [hj] at hl
        have := collapseGo_chunk (c :: a') hanl p []
        simp only [List.append_nil, List.isEmpty_cons, Bool.false_eq_true,
                   if_false] at this
        rw [this] at hl
        obtain ⟨m, hm, _⟩ := emitNLRun_eq_replicate p
        rw [hm] at hl
        have hz : collapseGo 0 ([] : List Char) = [] := by
          simp [collapseGo, emitNLRun]
        rw [hz, List.append_nil] at hl
        rw [splitNL_replicate_nl m (c :: a'),
            splitNL_of_no_nl _ hanl] at hl
        rcases List.mem_append.mp hl with h3 | h3
        · exact Or.inl (List.eq_of_mem_replicate h3)
        · simp only [List.mem_singleton] at h3
          exact Or.inr (by simp [h3])
    · rcases ha : a with _ | ⟨c, a'⟩
      · subst ha
        have hj : joinNL ([] :: r0 :: rest') = '\n' :: joinNL (r0 :: rest') := rfl
        rw [hj] at hl
        simp only [collapseGo, if_pos rfl] at hl
        rcases ih (p + 1) (fun x hx => hnl x (List.mem_cons.mpr (Or.inr hx)))
            l hl with h | h
        · exact Or.inl h
        · exact Or.inr (List.mem_cons.mpr (Or.inr h))
      · subst ha
        have hanl : '\n' ∉ c :: a' := hnl _ (List.mem_cons_self _ _)
        have hj : joinNL ((c :: a') :: r0 :: rest') =
            (c :: a') ++ '\n' :: joinNL (r0 :: rest') := rfl
        rw [hj] at hl
        have hch := collapseGo_chunk (c :: a') hanl p ('\n' :: joinNL (r0 :: rest'))
        simp only [List.isEmpty_cons, Bool.false_eq_true, if_false] at hch
        rw [hch] at hl
        have h1 : collapseGo 0 ('\n' :: joinNL (r0 :: rest')) =
            collapseGo 1 (joinNL (r0 :: rest')) := by
          simp [collapseGo]
        rw [h1] at hl
        obtain ⟨m, hm, _⟩ := emitNLRun_eq_replicate p
        rw [hm, List.append_assoc, splitNL_replicate_nl] at hl
        obtain ⟨t, ht⟩ := collapseGo_head_empty (joinNL (r0 :: rest')) 1 (by omega)
        rw [splitNL_append_chunk _ _ _ _ hanl ht, List.append_nil] at hl
        rcases List.mem_append.mp hl with h3 | h3
        · exact Or.inl (List.eq_of_mem_replicate h3)
        · rcases List.mem_cons.mp h3 with h4 | h4
          · exact Or.inr (by simp [h4])
          · have h5 : l ∈ splitNL (collapseGo 1 (joinNL (r0 :: rest'))) := by
              rw [ht]
              exact List.mem_cons.mpr (Or.inr h4)
            rcases ih 1 (fun x hx => hnl x (List.mem_cons.mpr (Or.inr hx)))
                l h5 with h | h
            · exact Or.inl h
            · exact Or.inr (List.mem_cons.mpr (Or.inr h))

/-- Collapse is the identity on documents whose only empty line (if
any) is the final one. -/
lemma collapseGo_joinNL_id (ls : List (List Char)) :
    ∀ (p : Nat), p ≤ 1 → ls ≠ [] → (∀ l ∈ ls, '\n' ∉ l) →
      (∀ l ∈ ls.dropLast, l ≠ []) →
      collapseGo p (joinNL ls) = List.replicate p '\n' ++ joinNL ls := by
  induction ls with
  | nil => intro p _ hne _ _; exact absurd rfl hne
  | cons a rest ih =>
    intro p hp _ hnl hfe
    rcases rest with _ | ⟨r0, rest'⟩
    · rcases ha : a with _ | ⟨c, a'⟩
      · simp only [joinNL, collapseGo, emitNLRun_small p (by omega)]
        simp
      · subst ha
        have hanl : '\n' ∉ c :: a' := hnl _ (List.mem_cons_self _ _)
        have hj : joinNL [c :: a'] = c :: a' := rfl
        rw [hj]
        have := collapseGo_chunk (c :: a') hanl p []
        simp only [List.append_nil, List.isEmpty_cons, Bool.false_eq_true,
                   if_false] at this
        rw [this, emitNLRun_small p (by omega)]
        simp [collapseGo, emitNLRun]
    · have hane : a ≠ [] := by
        have := hfe a (by simp [List.dropLast])
        exact this
      have hanl : '\n' ∉ a := hnl _ (List.mem_cons_self _ _)
      have hj : joinNL (a :: r0 :: rest') = a ++ '\n' :: joinNL (r0 :: rest') := rfl
      rw [hj]
      have hch := collapseGo_chunk a hanl p ('\n' :: joinNL (r0 :: rest'))
      have hE : a.isEmpty = false := by
        cases a with
        | nil => exact absurd rfl hane
        | cons _ _ => rfl
      rw [hE] at hch
      simp only [Bool.false_eq_true, if_false] at hch
      rw [hch]
      have h1 : collapseGo 0 ('\n' :: joinNL (r0 :: rest')) =
          collapseGo 1 (joinNL (r0 :: rest')) := by
        simp [collapseGo]
      rw [h1, ih 1 (by omega) (by simp)
            (fun x hx => hnl x (List.mem_cons.mpr (Or.inr hx)))
            (fun x hx => hfe x (by
              rcases rest' with _ | ⟨y, ys⟩
              · simp only [List.dropLast] at hx
                cases hx
              · simp only [List.dropLast] at hx ⊢
                exact List.mem_cons.mpr (Or.inr hx))),
          emitNLRun_small p (by omega)]
      simp [List.replicate]


/-- The marker search fails exactly when no line before the last holds
a whitespace-tailed `[params]` occurrence: the pattern
`(\\[params\\]\\s*\\n)` needs a following newline, so a marker on the final
line never matches. -/
lemma findParamsMarker_none_iff (ls : List (List Char)) :
    findParamsMarker ls = none ↔
      ∀ l ∈ ls.dropLast, lineHasParamsMarker l = false := by
  have hstep : ∀ (a : List Char) (rest : List (List Char)),
      findParamsMarker (a :: rest) =
        if lineHasParamsMarker a && !rest.isEmpty then some ([], a, rest)
        else
          match findParamsMarker rest with
          | some (p, m, s) => some (a :: p, m, s)
          | none => none := fun a rest => rfl
  induction ls with
  | nil => simp [findParamsMarker]
  | cons a rest ih =>
    rcases rest with _ | ⟨r0, rs⟩
    · simp [findParamsMarker]
    · rw [hstep]
      have hdl : (a :: r0 :: rs).dropLast = a :: (r0 :: rs).dropLast := rfl
      rw [hdl]
      cases hr : findParamsMarker (r0 :: rs) with
      | some x =>
        obtain ⟨p, m, s⟩ := x
        constructor
        · intro h
          split at h <;> cases h
        · intro h
          exfalso
          have hn : findParamsMarker (r0 :: rs) = none :=
            ih.mpr (fun l hl => h l (List.mem_cons.mpr (Or.inr hl)))
          rw [hr] at hn
          cases hn
      | none =>
        simp only [List.isEmpty_cons, Bool.not_false, Bool.and_true]
        constructor
        · intro h l hl
          rcases List.mem_cons.mp hl with h1 | h1
          · subst h1
            split at h
            · cases h
            · simp_all
          · exact ih.mp hr l h1
        · intro h
          rw [if_neg (by simp [h a (List.mem_cons_self _ _)])]

/-- C8 counterexample: a document whose `[params]` marker line is the
final line of the document still makes the mutator fail, although the
input document does contain a section-marker line. -/
theorem marker_last_line_still_errors :
    (∃ l ∈ splitNL ("x\n[params]".toList), lineHasParamsMarker l = true) ∧
      update_hugo_toml_field_text ("author_city".toList) ("Paris".toList)
        ("x\n[params]".toList) = Except.error sectionNotFoundError := by
  refine ⟨⟨"[params]".toList, by decide, by decide⟩, by rfl⟩

/-- C8 (amended): the mutator's text transform fails exactly when, in
the stripped and blank-collapsed document, no line before the final one
carries a whitespace-tailed `[params]` occurrence (a marker on the very
last line does not satisfy the pattern `(\[params\]\s*\n)`); every
failure is the section-not-found error and produces no document. -/
theorem section_error_iff_no_marker_before_last
    (fieldPath v doc : List Char) :
    ((update_hugo_toml_field_text fieldPath v doc =
        Except.error sectionNotFoundError) ↔
      ∀ l ∈ (processedLines fieldPath doc).dropLast,
        lineHasParamsMarker l = false) ∧
    (update_hugo_toml_field_text fieldPath v doc =
        Except.error sectionNotFoundError ∨
      ∃ out, update_hugo_toml_field_text fieldPath v doc = Except.ok out) := by
  have hproc : processedLines fieldPath doc =
      splitNL (collapseNewlines (joinNL (stripFieldLines fieldPath (splitNL doc)))) := rfl
  cases hF : findParamsMarker (processedLines fieldPath doc) with
  | none =>
    have hE : update_hugo_toml_field_text fieldPath v doc =
        Except.error sectionNotFoundError := by
      simp only [update_hugo_toml_field_text, ← hproc, hF]
    refine ⟨⟨fun _ => (findParamsMarker_none_iff _).mp hF, fun _ => hE⟩,
      Or.inl hE⟩
  | some x =>
    obtain ⟨p, m, s⟩ := x
    have hO : update_hugo_toml_field_text fieldPath v doc =
        Except.ok (joinNL (insertIntoParams fieldPath v p m s)) := by
      simp only [update_hugo_toml_field_text, ← hproc, hF]
    refine ⟨⟨fun h => ?_, fun h => ?_⟩, Or.inr ⟨_, hO⟩⟩
    · rw [hO] at h
      cases h
    · have : findParamsMarker (processedLines fieldPath doc) = none :=
        (findParamsMarker_none_iff _).mpr h
      rw [hF] at this
      cases this

/-- No nonempty field name matches the empty line or a blank line: a
match needs the field-name prefix after the leading whitespace. -/
lemma fieldLineMatches_of_blank (fc : Char) (ftl l : List Char)
    (h : isBlankLine l = true) : fieldLineMatches (fc :: ftl) l = false := by
  have hd : l.dropWhile pyWs = [] :=
    List.dropWhile_eq_nil_iff.mpr (fun a ha => by
      have := List.all_eq_true.mp h a ha
      exact this)
  simp [fieldLineMatches, hd, List.isPrefixOf]

/-- Every line emitted by the strip pass is an original line or the
final empty line left by a match that swallowed the last newline. -/
lemma stripFieldGo_mem (F : List Char) (b : Bool)
    (ls : List (List Char)) :
    ∀ l ∈ stripFieldGo F b ls, l = [] ∨ l ∈ ls := by
  induction ls generalizing b with
  | nil =>
    intro l hl
    simp only [stripFieldGo] at hl
    split at hl
    · simp only [List.mem_singleton] at hl
      exact Or.inl hl
    · cases hl
  | cons a rest ih =>
    intro l hl
    simp only [stripFieldGo] at hl
    split at hl
    · rcases ih true l hl with h | h
      · exact Or.inl h
      · exact Or.inr (List.mem_cons.mpr (Or.inr h))
    · split at hl
      · split at hl
        · rcases ih b l hl with h | h
          · exact Or.inl h
          · exact Or.inr (List.mem_cons.mpr (Or.inr h))
        · rcases List.mem_cons.mp hl with h | h
          · exact Or.inr (List.mem_cons.mpr (Or.inl h))
          · rcases ih false l h with h2 | h2
            · exact Or.inl h2
            · exact Or.inr (List.mem_cons.mpr (Or.inr h2))
      · rcases List.mem_cons.mp hl with h | h
        · exact Or.inr (List.mem_cons.mpr (Or.inl h))
        · rcases ih false l h with h2 | h2
          · exact Or.inl h2
          · exact Or.inr (List.mem_cons.mpr (Or.inr h2))

/-- The strip pass removes every matched line: its output contains no
line matching the removal regex. -/
lemma stripFieldGo_no_match (fc : Char) (ftl : List Char) (b : Bool)
    (ls : List (List Char)) :
    ∀ l ∈ stripFieldGo (fc :: ftl) b ls,
      fieldLineMatches (fc :: ftl) l = false := by
  induction ls generalizing b with
  | nil =>
    intro l hl
    simp only [stripFieldGo] at hl
    split at hl
    · simp only [List.mem_singleton] at hl
      subst hl
      exact fieldLineMatches_of_blank fc ftl [] (by simp [isBlankLine])
    · cases hl
  | cons a rest ih =>
    intro l hl
    simp only [stripFieldGo] at hl
    split at hl
    · exact ih true l hl
    · rename_i hm
      split at hl
      · split at hl
        · exact ih b l hl
        · rcases List.mem_cons.mp hl with h | h
          · subst h
            exact Bool.eq_false_iff.mpr hm
          · exact ih false l h
      · rcases List.mem_cons.mp hl with h | h
        · subst h
          exact Bool.eq_false_iff.mpr hm
        · exact ih false l h

/-- A non-quote character can always be absorbed by the `[^"\']`
alternative of the quoted-value matcher. -/
lemma quotedTail_cons_nonquote (d x : Char) (xs : List Char)
    (hd : isQuoteChar d = false) (h : quotedTail (x :: xs) = true) :
    quotedTail (d :: x :: xs) = true := by
  simp only [quotedTail, hd, Bool.not_false, Bool.true_and, Bool.false_and,
             Bool.false_or]
  simp [h]

/-- Escaping never produces a newline character. -/
lemma escapeToml_no_nl (v : List Char) : '\n' ∉ escapeToml v := by
  induction v with
  | nil => simp [escapeToml]
  | cons c r ih =>
    simp only [escapeToml]
    intro hmem
    rcases List.mem_append.mp hmem with h | h
    · split at h
      · simp at h
      · split at h
        · simp at h
        · split at h
          · simp at h
          · split at h
            · cases h
            · rename_i h1 h2 h3 h4
              simp only [List.mem_singleton] at h
              exact h3 h.symm
    · exact ih h

/-- Escaping never produces a single-quote character. -/
lemma escapeToml_no_squote (v : List Char) (hv : '\'' ∉ v) :
    '\'' ∉ escapeToml v := by
  induction v with
  | nil => simp [escapeToml]
  | cons c r ih =>
    have hc : c ≠ '\'' := fun he => hv (by simp [he])
    have hr := ih (fun hm => hv (List.mem_cons.mpr (Or.inr hm)))
    simp only [escapeToml]
    intro hmem
    rcases List.mem_append.mp hmem with h | h
    · split at h
      · simp at h
      · split at h
        · simp at h
        · split at h
          · simp at h
          · split at h
            · cases h
            · simp only [List.mem_singleton] at h
              exact hc h.symm
    · exact hr h

/-- The escaped body of a quoted value, followed by the closing quote,
is accepted by the quoted-value matcher when the original value holds
no single quote. -/
lemma quotedTail_escape (v : List Char) (hv : '\'' ∉ v) :
    quotedTail (escapeToml v ++ ['"']) = true := by
  induction v with
  | nil => simp [escapeToml, quotedTail, isQuoteChar]
  | cons c r ih =>
    have hc : c ≠ '\'' := fun he => hv (by simp [he])
    have hr := ih (fun hm => hv (List.mem_cons.mpr (Or.inr hm)))
    have hne : escapeToml r ++ ['"'] ≠ [] := by simp
    obtain ⟨x, xs, hx⟩ : ∃ x xs, escapeToml r ++ ['"'] = x :: xs := by
      rcases h : escapeToml r ++ ['"'] with _ | ⟨x, xs⟩
      · exact absurd h hne
      · exact ⟨x, xs, rfl⟩
    simp only [escapeToml, List.append_assoc]
    by_cases h1 : c = '\\'
    · subst h1
      simp only [if_pos rfl, List.cons_append, List.nil_append]
      rw [hx]
      exact quotedTail_cons_nonquote _ _ _ (by decide)
        (quotedTail_cons_nonquote _ _ _ (by decide) (hx ▸ hr))
    · by_cases h2 : c = '"'
      · subst h2
        rw [if_neg (by decide), if_pos rfl]
        simp only [List.cons_append, List.nil_append]
        simp only [quotedTail, isQuoteChar]
        rw [hr]
        simp
      · by_cases h3 : c = '\n'
        · subst h3
          rw [if_neg (by decide), if_neg (by decide), if_pos rfl]
          simp only [List.cons_append, List.nil_append]
          rw [hx]
          exact quotedTail_cons_nonquote _ _ _ (by decide)
            (quotedTail_cons_nonquote _ _ _ (by decide) (hx ▸ hr))
        · by_cases h4 : c = '\r'
          · subst h4
            rw [if_neg (by decide), if_neg (by decide), if_neg (by decide),
                if_pos rfl]
            simpa using hr
          · rw [if_neg h1, if_neg h2, if_neg h3, if_neg h4]
            simp only [List.cons_append, List.nil_append]
            rw [hx]
            exact quotedTail_cons_nonquote _ _ _
              (by simp [isQuoteChar, h2, hc]) (hx ▸ hr)

/-- Leading whitespace is skipped by `dropWhile pyWs`. -/
lemma dropWhile_ws_all_append (w t : List Char) (hw : w.all pyWs = true) :
    (w ++ t).dropWhile pyWs = t.dropWhile pyWs := by
  induction w with
  | nil => simp
  | cons c r ih =>
    have hc : pyWs c = true :=
      List.all_eq_true.mp hw c (List.mem_cons_self _ _)
    have hr : r.all pyWs = true := by
      simp only [List.all_cons, Bool.and_eq_true] at hw
      exact hw.2
    simp [List.dropWhile_cons, hc, ih hr]

/-- The freshly inserted field line (any whitespace indentation, the
field name, ` = `, the quoted value) is matched by the removal regex
reading. -/
lemma fieldLineMatches_inserted (fc : Char) (ftl v lw : List Char)
    (hfc : pyWs fc = false) (hw : lw.all pyWs = true) (hv : '\'' ∉ v) :
    fieldLineMatches (fc :: ftl)
      (lw ++ (fc :: ftl) ++ (' ' :: '=' :: ' ' :: tomlString v)) = true := by
  have h1 : (lw ++ (fc :: ftl) ++ (' ' :: '=' :: ' ' :: tomlString v)).dropWhile pyWs
      = (fc :: ftl) ++ (' ' :: '=' :: ' ' :: tomlString v) := by
    rw [List.append_assoc, dropWhile_ws_all_append _ _ hw]
    simp [List.dropWhile_cons, hfc]
  simp only [fieldLineMatches, h1]
  rw [Bool.and_eq_true]
  constructor
  · exact List.isPrefixOf_iff_prefix.mpr (List.prefix_append _ _)
  · rw [List.drop_left]
    have h2 : (' ' :: '=' :: ' ' :: tomlString v).dropWhile pyWs
        = '=' :: (' ' :: tomlString v) := by
      simp [List.dropWhile_cons, pyWs]
    rw [h2]
    show valueTail (' ' :: tomlString v) = true
    simp only [valueTail, tomlString]
    have h3 : (' ' :: '"' :: (escapeToml v ++ ['"'])).dropWhile pyWs
        = '"' :: (escapeToml v ++ ['"']) := by
      simp [List.dropWhile_cons, pyWs]
    rw [h3]
    simp [quotedTail_escape v hv, isQuoteChar]

/-- Splitting whitespace (possibly holding newlines) followed by a
newline-free tail: blank lines, then the tail with a whitespace
prefix. -/
lemma splitNL_ws_append (w : List Char) :
    ∀ (t : List Char), w.all pyWs = true → '\n' ∉ t →
      ∃ pre lw, splitNL (w ++ t) = pre ++ [lw ++ t] ∧
        (∀ x ∈ pre, isBlankLine x = true) ∧ lw.all pyWs = true := by
  induction w with
  | nil =>
    intro t _ ht
    exact ⟨[], [], by simp [splitNL_of_no_nl t ht], by simp, by simp⟩
  | cons c r ih =>
    intro t hw ht
    have hc : pyWs c = true :=
      List.all_eq_true.mp hw c (List.mem_cons_self _ _)
    have hr : r.all pyWs = true := by
      simp only [List.all_cons, Bool.and_eq_true] at hw
      exact hw.2
    obtain ⟨pre, lw, hs, hpre, hlw⟩ := ih t hr ht
    by_cases hcn : c = '\n'
    · subst hcn
      refine ⟨[] :: pre, lw, ?_, ?_, hlw⟩
      · simp only [List.cons_append, splitNL]
        rcases hps : splitNL (r ++ t) with _ | ⟨h1, t1⟩
        · exact absurd hps (splitNL_ne_nil _)
        · rw [hps] at hs
          simp [hs]
      · intro x hx
        rcases List.mem_cons.mp hx with h | h
        · simp [h, isBlankLine]
        · exact hpre x h
    · cases pre with
      | nil =>
        refine ⟨[], c :: lw, ?_, by simp, ?_⟩
        · simp only [List.cons_append, splitNL, List.append_eq]
          rw [hs]
          simp [hcn]
        · simp [List.all_cons, hc, hlw]
      | cons p0 ps =>
        refine ⟨(c :: p0) :: ps, lw, ?_, ?_, hlw⟩
        · simp only [List.cons_append, splitNL, List.append_eq]
          rw [hs]
          simp [hcn]
        · intro x hx
          rcases List.mem_cons.mp hx with h | h
          · subst h
            have hp0 : isBlankLine p0 = true := hpre p0 (List.mem_cons_self _ _)
            simp only [isBlankLine, List.all_cons, hc, Bool.true_and]
            exact hp0
          · exact hpre x (List.mem_cons.mpr (Or.inr h))

/-- The indentation sampled by the indent regex is whitespace. -/
lemma findIndent_ws (cs : List Char) :
    ∀ (w : List Char), findIndent cs = some w → w.all pyWs = true := by
  induction cs with
  | nil => intro w h; cases h
  | cons c r ih =>
    intro w h
    simp only [findIndent] at h
    split at h
    · split at h
      · cases h
        exact List.all_eq_true.mpr (fun a ha => List.mem_takeWhile_imp ha)
      · exact ih w h
    · exact ih w h

/-- A found marker decomposes the document's lines. -/
lemma findParamsMarker_some_split (ls : List (List Char)) :
    ∀ (p : List (List Char)) (m : List Char) (s : List (List Char)),
      findParamsMarker ls = some (p, m, s) → ls = p ++ m :: s := by
  induction ls with
  | nil => intro p m s h; cases h
  | cons a rest ih =>
    intro p m s h
    simp only [findParamsMarker] at h
    split at h
    · simp only [Option.some.injEq, Prod.mk.injEq] at h
      obtain ⟨h5, h6, h7⟩ := h
      subst h5
      subst h6
      subst h7
      simp
    · cases hr : findParamsMarker rest with
      | some x =>
        obtain ⟨p2, m2, s2⟩ := x
        rw [hr] at h
        simp only [Option.some.injEq, Prod.mk.injEq] at h
        obtain ⟨h5, h6, h7⟩ := h
        subst h5
        subst h6
        subst h7
        rw [ih p2 m2 s2 hr]
        simp
      | none =>
        rw [hr] at h
        cases h

/-- Splitting the inserted field-line text yields exactly one line
matched by the removal regex (blank spill-over lines from a sampled
indentation holding newlines do not match). -/
lemma countP_inserted_text (fc : Char) (ftl v indent : List Char)
    (hfc : pyWs fc = false) (hftl : '\n' ∉ ftl) (hv : '\'' ∉ v)
    (hind : indent.all pyWs = true) :
    (splitNL (fieldLineText indent (fc :: ftl) v)).countP
      (fieldLineMatches (fc :: ftl)) = 1 := by
  have ht : '\n' ∉ (fc :: ftl) ++ (' ' :: '=' :: ' ' :: tomlString v) := by
    intro hm
    rcases List.mem_append.mp hm with h | h
    · rcases List.mem_cons.mp h with h | h
      · rw [← h] at hfc
        exact absurd hfc (by decide)
      · exact hftl h
    · simp only [List.mem_cons] at h
      rcases h with h | h | h | h
      · exact absurd h (by decide)
      · exact absurd h (by decide)
      · exact absurd h (by decide)
      · simp only [tomlString, List.mem_cons] at h
        rcases h with h | h
        · exact absurd h (by decide)
        · rcases List.mem_append.mp h with h2 | h2
          · exact escapeToml_no_nl v h2
          · simp only [List.mem_singleton] at h2
            exact absurd h2 (by decide)
  have hform : fieldLineText indent (fc :: ftl) v =
      indent ++ ((fc :: ftl) ++ (' ' :: '=' :: ' ' :: tomlString v)) := by
    simp [fieldLineText, List.append_assoc]
  obtain ⟨pre, lw, hs, hpre, hlw⟩ := splitNL_ws_append indent _ hind ht
  rw [hform, hs, List.countP_append]
  have h0 : pre.countP (fieldLineMatches (fc :: ftl)) = 0 :=
    List.countP_eq_zero.mpr (fun x hx => by
      simp [fieldLineMatches_of_blank fc ftl x (hpre x hx)])
  have h1 : fieldLineMatches (fc :: ftl)
      (lw ++ ((fc :: ftl) ++ (' ' :: '=' :: ' ' :: tomlString v))) = true := by
    have h2 := fieldLineMatches_inserted fc ftl v lw hfc hlw hv
    rw [List.append_assoc] at h2
    exact h2
  rw [List.cons_append] at h1
  simp [h0, List.countP_cons, h1]

/-- Members of a `takeWhile` prefix are members of the list. -/
lemma mem_takeWhile_mem {α : Type} (q : α → Bool) (l : List α) :
    ∀ x ∈ l.takeWhile q, x ∈ l := by
  induction l with
  | nil => simp
  | cons a t ih =>
    intro x hx
    rw [List.takeWhile_cons] at hx
    by_cases hq : q a = true
    · rw [if_pos hq] at hx
      rcases List.mem_cons.mp hx with h | h
      · exact List.mem_cons.mpr (Or.inl h)
      · exact List.mem_cons.mpr (Or.inr (ih x h))
    · rw [if_neg hq] at hx
      cases hx

/-- Members of a `dropWhile` suffix are members of the list. -/
lemma mem_dropWhile_mem {α : Type} (q : α → Bool) (l : List α) :
    ∀ x ∈ l.dropWhile q, x ∈ l := by
  induction l with
  | nil => simp
  | cons a t ih =>
    intro x hx
    rw [List.dropWhile_cons] at hx
    by_cases hq : q a = true
    · rw [if_pos hq] at hx
      exact List.mem_cons.mpr (Or.inr (ih x hx))
    · rw [if_neg hq] at hx
      exact hx

/-- Members of `dropLast` are members of the list. -/
lemma mem_dropLast_mem {α : Type} (l : List α) :
    ∀ x ∈ l.dropLast, x ∈ l := by
  induction l with
  | nil => simp
  | cons a t ih =>
    intro x hx
    cases t with
    | nil => simp [List.dropLast] at hx
    | cons b ts =>
      have hd : (a :: b :: ts).dropLast = a :: (b :: ts).dropLast := rfl
      rw [hd] at hx
      rcases List.mem_cons.mp hx with h | h
      · exact List.mem_cons.mpr (Or.inl h)
      · exact List.mem_cons.mpr (Or.inr (ih x h))

/-- The last element, when present, is a member. -/
lemma getLast?_mem_of_eq {α : Type} (l : List α) :
    ∀ (a : α), l.getLast? = some a → a ∈ l := by
  induction l with
  | nil => intro a h; cases h
  | cons b t ih =>
    intro a h
    cases t with
    | nil =>
      simp only [List.getLast?_singleton, Option.some.injEq] at h
      simp [h]
    | cons c ts =>
      rw [List.getLast?_cons_cons] at h
      exact List.mem_cons.mpr (Or.inr (ih a h))

/-- Unfolding the insertion when a non-blank line follows the marker. -/
lemma insertIntoParams_eq_cons (F v : List Char) (p : List (List Char))
    (m : List Char) (s : List (List Char)) (r : List Char)
    (rs : List (List Char)) (h : s.dropWhile isBlankLine = r :: rs) :
    insertIntoParams F v p m s =
      p ++ m :: (s.takeWhile isBlankLine ++
        splitNL (fieldLineText
          ((findIndent ((joinNL (r :: rs)).take 200)).getD ("  ".toList)) F v)
        ++ r :: rs) := by
  simp only [insertIntoParams, h]

/-- Unfolding the insertion when only blank lines follow the marker. -/
lemma insertIntoParams_eq_nil (F v : List Char) (p : List (List Char))
    (m : List Char) (s : List (List Char))
    (h : s.dropWhile isBlankLine = []) :
    insertIntoParams F v p m s =
      p ++ m :: ((s.takeWhile isBlankLine).dropLast ++
        splitNL (fieldLineText
          ((findIndent ((((s.takeWhile isBlankLine).getLast?).getD []).take 200)).getD ("  ".toList)) F v)
        ++ [((s.takeWhile isBlankLine).getLast?).getD []]) := by
  simp only [insertIntoParams, h]

/-- The default or sampled indentation is whitespace. -/
lemma indent_choice_ws (window : List Char) :
    ((findIndent window).getD ("  ".toList)).all pyWs = true := by
  cases hfi : findIndent window with
  | none => decide
  | some w => simpa using findIndent_ws window w hfi

/-- The insertion step on newline-free, regex-free surroundings yields
a nonempty, newline-free line list with exactly one line matching the
removal regex. -/
lemma insertIntoParams_facts (fc : Char) (ftl v : List Char)
    (p : List (List Char)) (m : List Char) (s : List (List Char))
    (hfc : pyWs fc = false) (hftl : '\n' ∉ ftl) (hv : '\'' ∉ v)
    (hnlp : ∀ l ∈ p, '\n' ∉ l) (hnlm : '\n' ∉ m)
    (hnls : ∀ l ∈ s, '\n' ∉ l)
    (hmp : ∀ l ∈ p, fieldLineMatches (fc :: ftl) l = false)
    (hmm : fieldLineMatches (fc :: ftl) m = false)
    (hms : ∀ l ∈ s, fieldLineMatches (fc :: ftl) l = false) :
    insertIntoParams (fc :: ftl) v p m s ≠ [] ∧
    (∀ l ∈ insertIntoParams (fc :: ftl) v p m s, '\n' ∉ l) ∧
    (insertIntoParams (fc :: ftl) v p m s).countP
      (fieldLineMatches (fc :: ftl)) = 1 := by
  have hcp : p.countP (fieldLineMatches (fc :: ftl)) = 0 :=
    List.countP_eq_zero.mpr (fun x hx => by simp [hmp x hx])
  cases hdw : s.dropWhile isBlankLine with
  | cons r rs =>
    rw [insertIntoParams_eq_cons _ _ _ _ _ _ _ hdw]
    have hbs0 : (s.takeWhile isBlankLine).countP
        (fieldLineMatches (fc :: ftl)) = 0 :=
      List.countP_eq_zero.mpr (fun x hx => by
        simp [hms x (mem_takeWhile_mem _ _ x hx)])
    have hrs0 : (r :: rs).countP (fieldLineMatches (fc :: ftl)) = 0 :=
      List.countP_eq_zero.mpr (fun x hx => by
        simp [hms x (mem_dropWhile_mem isBlankLine s x (hdw ▸ hx))])
    have hT1 := countP_inserted_text fc ftl v _ hfc hftl hv
      (indent_choice_ws ((joinNL (r :: rs)).take 200))
    refine ⟨by simp, ?_, ?_⟩
    · intro l hl
      rcases List.mem_append.mp hl with h | h
      · exact hnlp l h
      · rcases List.mem_cons.mp h with h2 | h2
        · exact h2 ▸ hnlm
        · rcases List.mem_append.mp h2 with h3 | h3
          · rcases List.mem_append.mp h3 with h4 | h4
            · exact hnls l (mem_takeWhile_mem _ _ l h4)
            · exact splitNL_no_nl _ l h4
          · exact hnls l (mem_dropWhile_mem isBlankLine s l (hdw ▸ h3))
    · rw [show ("  ".toList : List Char) = [' ', ' '] from rfl] at hT1
      simp [List.countP_append, List.countP_cons, hcp, hbs0, hrs0, hT1, hmm]
  | nil =>
    rw [insertIntoParams_eq_nil _ _ _ _ _ hdw]
    have hlastBlank : isBlankLine
        (((s.takeWhile isBlankLine).getLast?).getD []) = true := by
      cases hgl : (s.takeWhile isBlankLine).getLast? with
      | none => simp [isBlankLine]
      | some x =>
        simpa using List.mem_takeWhile_imp
          (getLast?_mem_of_eq (s.takeWhile isBlankLine) x hgl)
    have hlastNl : '\n' ∉ ((s.takeWhile isBlankLine).getLast?).getD [] := by
      cases hgl : (s.takeWhile isBlankLine).getLast? with
      | none => simp
      | some x =>
        simpa using hnls x (mem_takeWhile_mem _ _ x
          (getLast?_mem_of_eq (s.takeWhile isBlankLine) x hgl))
    have hbs0 : ((s.takeWhile isBlankLine).dropLast).countP
        (fieldLineMatches (fc :: ftl)) = 0 :=
      List.countP_eq_zero.mpr (fun x hx => by
        simp [hms x (mem_takeWhile_mem _ _ x
          (mem_dropLast_mem _ x hx))])
    have hT1 := countP_inserted_text fc ftl v _ hfc hftl hv
      (indent_choice_ws ((((s.takeWhile isBlankLine).getLast?).getD []).take 200))
    have hlast0 : fieldLineMatches (fc :: ftl)
        (((s.takeWhile isBlankLine).getLast?).getD []) = false :=
      fieldLineMatches_of_blank fc ftl _ hlastBlank
    refine ⟨by simp, ?_, ?_⟩
    · intro l hl
      rcases List.mem_append.mp hl with h | h
      · exact hnlp l h
      · rcases List.mem_cons.mp h with h2 | h2
        · exact h2 ▸ hnlm
        · rcases List.mem_append.mp h2 with h3 | h3
          · rcases List.mem_append.mp h3 with h4 | h4
            · exact hnls l (mem_takeWhile_mem _ _ l
                (mem_dropLast_mem _ l h4))
            · exact splitNL_no_nl _ l h4
          · simp only [List.mem_singleton] at h3
            exact h3 ▸ hlastNl
    · rw [show ("  ".toList : List Char) = [' ', ' '] from rfl] at hT1
      simp [List.countP_append, List.countP_cons, hcp, hbs0, hT1, hmm, hlast0]

/-- C2 counterexample: the line `author_city = "it's"` is not matched
by the removal regex (its value holds both quote kinds, defeating both
the bare and the quoted alternative), so updating `author_city` leaves
the old assignment in place next to the freshly inserted one: two lines
of the result assign the field. -/
theorem field_update_duplicate_assignment :
    update_hugo_toml_field_text ("author_city".toList) ("Paris".toList)
        ("[params]\nauthor_city = \"it".toList ++ [Char.ofNat 39] ++
          "s\"\nx = 1".toList) =
      Except.ok ("[params]\n  author_city = \"Paris\"\nauthor_city = \"it".toList
        ++ [Char.ofNat 39] ++ "s\"\nx = 1".toList) ∧
    (splitNL ("[params]\n  author_city = \"Paris\"\nauthor_city = \"it".toList
        ++ [Char.ofNat 39] ++ "s\"\nx = 1".toList)).countP
      (assignsField ("author_city".toList)) = 2 := by
  exact ⟨by rfl, by rfl⟩

/-- C2 (amended): for a field name starting with a non-whitespace
character and free of newlines, and a value free of single quotes (as
for every value the bot inserts after its cancel check, single quotes
apart), a successful update yields a document in which exactly one line
is matched by the removal regex for that field — the freshly inserted
one.  (For values holding a single quote the old assignment can survive
the strip pass, see the counterexample.) -/
theorem field_update_unique_assignment
    (fc : Char) (ftl v d out : List Char)
    (hfc : pyWs fc = false) (hftl : '\n' ∉ ftl) (hv : '\'' ∉ v)
    (h : update_hugo_toml_field_text (fc :: ftl) v d = Except.ok out) :
    (splitNL out).countP (fieldLineMatches (fc :: ftl)) = 1 := by
  have hproc : processedLines (fc :: ftl) d =
      splitNL (collapseNewlines (joinNL (stripFieldLines (fc :: ftl) (splitNL d)))) := rfl
  cases hM : findParamsMarker (processedLines (fc :: ftl) d) with
  | none =>
    simp only [update_hugo_toml_field_text, ← hproc, hM] at h
    cases h
  | some x =>
    obtain ⟨p, m, s⟩ := x
    simp only [update_hugo_toml_field_text, ← hproc, hM] at h
    have hout : out = joinNL (insertIntoParams (fc :: ftl) v p m s) :=
      (Except.ok.inj h).symm
    have hsplit := findParamsMarker_some_split _ p m s hM
    have hnlAll : ∀ l ∈ processedLines (fc :: ftl) d, '\n' ∉ l := by
      rw [hproc]
      exact splitNL_no_nl _
    have hmAll : ∀ l ∈ processedLines (fc :: ftl) d,
        fieldLineMatches (fc :: ftl) l = false := by
      intro l hl
      rw [hproc] at hl
      have hnl1 : ∀ x ∈ stripFieldLines (fc :: ftl) (splitNL d), '\n' ∉ x := by
        intro x hx
        simp only [stripFieldLines] at hx
        rcases stripFieldGo_mem (fc :: ftl) false (splitNL d) x hx with he | hm2
        · rw [he]
          simp
        · exact splitNL_no_nl d x hm2
      simp only [collapseNewlines] at hl
      rcases mem_splitNL_collapseGo_joinNL _ 0 hnl1 l hl with he | hm2
      · rw [he]
        exact fieldLineMatches_of_blank fc ftl [] (by simp [isBlankLine])
      · exact stripFieldGo_no_match fc ftl false (splitNL d) l hm2
    have hp1 : ∀ l ∈ p, '\n' ∉ l :=
      fun l hl => hnlAll l (by rw [hsplit]; exact List.mem_append_left _ hl)
    have hm1 : '\n' ∉ m :=
      hnlAll m (by rw [hsplit]; exact List.mem_append_right _ (List.mem_cons_self _ _))
    have hs1 : ∀ l ∈ s, '\n' ∉ l :=
      fun l hl => hnlAll l (by
        rw [hsplit]; exact List.mem_append_right _ (List.mem_cons.mpr (Or.inr hl)))
    have hp2 : ∀ l ∈ p, fieldLineMatches (fc :: ftl) l = false :=
      fun l hl => hmAll l (by rw [hsplit]; exact List.mem_append_left _ hl)
    have hm2 : fieldLineMatches (fc :: ftl) m = false :=
      hmAll m (by rw [hsplit]; exact List.mem_append_right _ (List.mem_cons_self _ _))
    have hs2 : ∀ l ∈ s, fieldLineMatches (fc :: ftl) l = false :=
      fun l hl => hmAll l (by
        rw [hsplit]; exact List.mem_append_right _ (List.mem_cons.mpr (Or.inr hl)))
    obtain ⟨hne, hnlL, hcnt⟩ :=
      insertIntoParams_facts fc ftl v p m s hfc hftl hv hp1 hm1 hs1 hp2 hm2 hs2
    rw [hout, splitNL_joinNL _ hne hnlL, hcnt]

/-- The unique-assignment theorem at a concrete instance. -/
theorem field_update_unique_assignment_witness :
    pyWs 'a' = false ∧ '\n' ∉ "uthor_city".toList ∧ '\'' ∉ "Paris".toList ∧
    update_hugo_toml_field_text ('a' :: "uthor_city".toList) ("Paris".toList)
        ("[params]\nx = 1".toList) =
      Except.ok ("[params]\n  author_city = \"Paris\"\nx = 1".toList) ∧
    (splitNL ("[params]\n  author_city = \"Paris\"\nx = 1".toList)).countP
      (fieldLineMatches ('a' :: "uthor_city".toList)) = 1 :=
  ⟨by decide, by decide, by decide, by rfl,
    field_update_unique_assignment 'a' ("uthor_city".toList) ("Paris".toList)
      ("[params]\nx = 1".toList)
      ("[params]\n  author_city = \"Paris\"\nx = 1".toList)
      (by decide) (by decide) (by decide) (by rfl)⟩

/-- Dropping a satisfied prefix continues behind it. -/
lemma dropWhile_append_of_all {α : Type} (q : α → Bool) (w t : List α)
    (hw : ∀ x ∈ w, q x = true) :
    (w ++ t).dropWhile q = t.dropWhile q := by
  induction w with
  | nil => simp
  | cons a r ih =>
    have ha : q a = true := hw a (List.mem_cons_self _ _)
    simp only [List.cons_append, List.dropWhile_cons, ha, if_pos]
    exact ih (fun x hx => hw x (List.mem_cons.mpr (Or.inr hx)))

/-- A line matched by the removal regex contains an equals sign. -/
lemma fieldLineMatches_mem_eq (F l : List Char)
    (h : fieldLineMatches F l = true) : '=' ∈ l := by
  simp only [fieldLineMatches] at h
  rw [Bool.and_eq_true] at h
  obtain ⟨h1, hB⟩ := h
  split at hB
  · rename_i rest2 heq
    have h2 : '=' ∈ ((l.dropWhile pyWs).drop F.length).dropWhile pyWs := by
      rw [heq]
      exact List.mem_cons_self _ _
    exact mem_dropWhile_mem _ _ _
      (List.drop_subset _ _ (mem_dropWhile_mem _ _ _ h2))
  · cases hB

/-- A line matched by the removal regex is not blank. -/
lemma fieldLineMatches_not_blank (F l : List Char)
    (h : fieldLineMatches F l = true) : isBlankLine l = false := by
  cases hb : isBlankLine l with
  | false => rfl
  | true =>
    have h2 : pyWs '=' = true :=
      List.all_eq_true.mp hb '=' (fieldLineMatches_mem_eq F l h)
    exact absurd h2 (by decide)

/-- The `[params]` marker line is never a field line: it holds no
equals sign. -/
lemma paramsMarker_not_field (F : List Char) :
    fieldLineMatches F paramsMarker = false := by
  cases hf : fieldLineMatches F paramsMarker with
  | false => rfl
  | true =>
    have h2 := fieldLineMatches_mem_eq F paramsMarker hf
    exact absurd h2 (by decide)

/-- A non-blank line is nonempty. -/
lemma ne_nil_of_not_blank (l : List Char) (h : isBlankLine l = false) :
    l ≠ [] := by
  intro he
  subst he
  simp [isBlankLine] at h

/-- The strip pass is the identity on line lists free of blank lines
and of matched field lines. -/
lemma stripFieldGo_id (F : List Char) (ls : List (List Char))
    (h : ∀ l ∈ ls, isBlankLine l = false ∧ fieldLineMatches F l = false) :
    stripFieldGo F false ls = ls := by
  induction ls with
  | nil => rfl
  | cons l rest ih =>
    obtain ⟨hb, hf⟩ := h l (List.mem_cons_self _ _)
    simp only [stripFieldGo, hf, Bool.false_eq_true, if_false, hb]
    rw [ih (fun x hx => h x (List.mem_cons.mpr (Or.inr hx)))]

/-- The strip pass passes a clean prefix through untouched. -/
lemma stripFieldGo_append_clean (F : List Char) (q rest : List (List Char))
    (h : ∀ l ∈ q, isBlankLine l = false ∧ fieldLineMatches F l = false) :
    stripFieldGo F false (q ++ rest) = q ++ stripFieldGo F false rest := by
  induction q with
  | nil => simp
  | cons l q2 ih =>
    obtain ⟨hb, hf⟩ := h l (List.mem_cons_self _ _)
    simp only [List.cons_append, stripFieldGo, hf, Bool.false_eq_true,
               if_false, hb, List.append_eq]
    rw [ih (fun x hx => h x (List.mem_cons.mpr (Or.inr hx)))]

/-- The strip pass deletes a matched field line together with the blank
lines directly before it (the leading `^\s*` of the removal regex). -/
lemma stripFieldGo_blanks_field (F fl : List Char) (pre s : List (List Char))
    (hpre : ∀ x ∈ pre, isBlankLine x = true)
    (hfl : fieldLineMatches F fl = true) :
    stripFieldGo F false (pre ++ fl :: s) = stripFieldGo F true s := by
  induction pre with
  | nil => simp [stripFieldGo, hfl]
  | cons x pre2 ih =>
    have hxb : isBlankLine x = true := hpre x (List.mem_cons_self _ _)
    have hxf : fieldLineMatches F x = false := by
      cases hc : fieldLineMatches F x with
      | false => rfl
      | true =>
        rw [fieldLineMatches_not_blank F x hc] at hxb
        cases hxb
    have hnext : nextIsFieldLine F (pre2 ++ fl :: s) = true := by
      simp only [nextIsFieldLine]
      rw [dropWhile_append_of_all isBlankLine pre2 _
            (fun y hy => hpre y (List.mem_cons.mpr (Or.inr hy))),
          List.dropWhile_cons,
          if_neg (by simp [fieldLineMatches_not_blank F fl hfl])]
      exact hfl
    simp only [List.cons_append, stripFieldGo, hxf, Bool.false_eq_true,
               if_false, hxb, List.append_eq, Bool.false_or, hnext, if_true]
    exact ih (fun y hy => hpre y (List.mem_cons.mpr (Or.inr hy)))

/-- The marker search finds the first marker line when the prefix is
marker-free and the marker is not last. -/
lemma findParamsMarker_eq_some (p : List (List Char)) (m : List Char)
    (s : List (List Char)) (hp : ∀ l ∈ p, lineHasParamsMarker l = false)
    (hm : lineHasParamsMarker m = true) (hs : s ≠ []) :
    findParamsMarker (p ++ m :: s) = some (p, m, s) := by
  have hstep : ∀ (a : List Char) (rest : List (List Char)),
      findParamsMarker (a :: rest) =
        if lineHasParamsMarker a && !rest.isEmpty then some ([], a, rest)
        else
          match findParamsMarker rest with
          | some (q, m2, s2) => some (a :: q, m2, s2)
          | none => none := fun a rest => rfl
  induction p with
  | nil =>
    rw [List.nil_append, hstep]
    have hse : s.isEmpty = false := by
      cases s with
      | nil => exact absurd rfl hs
      | cons a t => rfl
    rw [if_pos (by simp [hm, hse])]
  | cons a p2 ih =>
    rw [List.cons_append, hstep]
    have ha : lineHasParamsMarker a = false := hp a (List.mem_cons_self _ _)
    rw [if_neg (by simp [ha]),
        ih (fun l hl => hp l (List.mem_cons.mpr (Or.inr hl)))]

/-- The constant part of the inserted field line holds no newline. -/
lemma fieldLineText_tail_no_nl (fc : Char) (ftl v : List Char)
    (hfc : pyWs fc = false) (hftl : '\n' ∉ ftl) :
    '\n' ∉ (fc :: ftl) ++ (' ' :: '=' :: ' ' :: tomlString v) := by
  intro hm
  rcases List.mem_append.mp hm with h | h
  · rcases List.mem_cons.mp h with h | h
    · rw [← h] at hfc
      exact absurd hfc (by decide)
    · exact hftl h
  · simp only [List.mem_cons] at h
    rcases h with h | h | h | h
    · exact absurd h (by decide)
    · exact absurd h (by decide)
    · exact absurd h (by decide)
    · simp only [tomlString, List.mem_cons] at h
      rcases h with h | h
      · exact absurd h (by decide)
      · rcases List.mem_append.mp h with h2 | h2
        · exact escapeToml_no_nl v h2
        · simp only [List.mem_singleton] at h2
          exact absurd h2 (by decide)

/-- `dropWhile` yields a suffix. -/
lemma dropWhile_suffix_exists {α : Type} (q : α → Bool) (l : List α) :
    ∃ u, u ++ l.dropWhile q = l := by
  induction l with
  | nil => exact ⟨[], rfl⟩
  | cons a t ih =>
    by_cases hq : q a = true
    · obtain ⟨u, hu⟩ := ih
      exact ⟨a :: u, by simp [List.dropWhile_cons, hq, hu]⟩
    · exact ⟨[], by simp [List.dropWhile_cons, hq]⟩

/-- A line matched by the removal regex contains the field name. -/
lemma fieldLineMatches_isInfix (F l : List Char)
    (h : fieldLineMatches F l = true) : List.IsInfix F l := by
  simp only [fieldLineMatches] at h
  rw [Bool.and_eq_true] at h
  obtain ⟨t, ht⟩ := List.isPrefixOf_iff_prefix.mp h.1
  obtain ⟨u, hu⟩ := dropWhile_suffix_exists pyWs l
  exact ⟨u, t, by rw [List.append_assoc, ht]; exact hu⟩

/-- A line free of any occurrence of the field name is never matched by
the removal regex. -/
lemma fieldLineMatches_false_of_not_infix (F l : List Char)
    (h : ¬ List.IsInfix F l) : fieldLineMatches F l = false := by
  cases hf : fieldLineMatches F l with
  | false => rfl
  | true => exact absurd (fieldLineMatches_isInfix F l hf) h

/-- C1 counterexample: with a blank line between `[params]` and the
next content, the first update inserts the field line after the blank
line, and the second update deletes that blank line (the leading `^\s*`
of the removal regex consumes it together with the previously inserted
field line) before reinserting, so the second output differs from the
first. -/
theorem field_update_not_idempotent :
    update_hugo_toml_field_text ("author_city".toList) ("Paris".toList)
        ("[params]\n\nfoo = 1".toList) =
      Except.ok ("[params]\n\n  author_city = \"Paris\"\nfoo = 1".toList) ∧
    update_hugo_toml_field_text ("author_city".toList) ("Paris".toList)
        ("[params]\n\n  author_city = \"Paris\"\nfoo = 1".toList) =
      Except.ok ("[params]\n  author_city = \"Paris\"\nfoo = 1".toList) ∧
    ("[params]\n  author_city = \"Paris\"\nfoo = 1".toList ≠
      "[params]\n\n  author_city = \"Paris\"\nfoo = 1".toList) :=
  ⟨by rfl, by rfl, by decide⟩

/-- C1 (amended): the field mutator's text transform is idempotent on
clean documents: every line newline-free, non-blank, free of quote
characters and of any occurrence of the field name; a field name whose
first character is non-whitespace and not `[`; the `[params]` marker on
a non-final line with no earlier line carrying a marker occurrence; and
a value free of both quote kinds.  On this class the line-wise reading
of the removal regex coincides with its full multi-line reading: the
quoted alternative needs a quote character, the bare alternative admits
no newline, every match must contain the field-name literal (which
holds no newline, so it sits inside one line), and the whitespace parts
of the pattern can only cross a line break through a blank line — so no
match exists in the original lines, none spans a line break, and the
only match of the second pass is the single freshly inserted quoted
line.  (Outside the class a second application can differ — see the
counterexample for blank lines; values or lines holding quote
characters allow matches that survive or span line breaks.) -/
theorem field_update_idempotent_on_clean
    (fc : Char) (ftl v : List Char) (p s : List (List Char))
    (hfc : pyWs fc = false) (hbr : fc ≠ '[') (hftl : '\n' ∉ ftl)
    (hvq : '"' ∉ v) (hv : '\'' ∉ v)
    (hpC : ∀ l ∈ p, '\n' ∉ l ∧ isBlankLine l = false ∧
      lineHasParamsMarker l = false ∧ ¬ List.IsInfix (fc :: ftl) l ∧
      (∀ c ∈ l, isQuoteChar c = false))
    (hsC : ∀ l ∈ s, '\n' ∉ l ∧ isBlankLine l = false ∧
      ¬ List.IsInfix (fc :: ftl) l ∧ (∀ c ∈ l, isQuoteChar c = false))
    (hsne : s ≠ []) :
    ∃ out,
      update_hugo_toml_field_text (fc :: ftl) v
          (joinNL (p ++ paramsMarker :: s)) = Except.ok out ∧
      update_hugo_toml_field_text (fc :: ftl) v out = Except.ok out := by
  have hp : ∀ l ∈ p, '\n' ∉ l ∧ isBlankLine l = false ∧
      lineHasParamsMarker l = false ∧
      fieldLineMatches (fc :: ftl) l = false := fun l hl =>
    ⟨(hpC l hl).1, (hpC l hl).2.1, (hpC l hl).2.2.1,
     fieldLineMatches_false_of_not_infix _ _ (hpC l hl).2.2.2.1⟩
  have hs : ∀ l ∈ s, '\n' ∉ l ∧ isBlankLine l = false ∧
      fieldLineMatches (fc :: ftl) l = false := fun l hl =>
    ⟨(hsC l hl).1, (hsC l hl).2.1,
     fieldLineMatches_false_of_not_infix _ _ (hsC l hl).2.2.1⟩
  obtain ⟨r0, s2, rfl⟩ : ∃ r0 s2, s = r0 :: s2 := by
    cases s with
    | nil => exact absurd rfl hsne
    | cons a t => exact ⟨a, t, rfl⟩
  have hDnl : ∀ l ∈ p ++ paramsMarker :: r0 :: s2, '\n' ∉ l := by
    intro l hl
    rcases List.mem_append.mp hl with h | h
    · exact (hp l h).1
    · rcases List.mem_cons.mp h with h2 | h2
      · subst h2
        decide
      · exact (hs l h2).1
  have hDclean : ∀ l ∈ p ++ paramsMarker :: r0 :: s2,
      isBlankLine l = false ∧ fieldLineMatches (fc :: ftl) l = false := by
    intro l hl
    rcases List.mem_append.mp hl with h | h
    · exact ⟨(hp l h).2.1, (hp l h).2.2.2⟩
    · rcases List.mem_cons.mp h with h2 | h2
      · subst h2
        exact ⟨by decide, paramsMarker_not_field _⟩
      · exact ⟨(hs l h2).2.1, (hs l h2).2.2⟩
  have hDne : (p ++ paramsMarker :: r0 :: s2 : List (List Char)) ≠ [] := by
    simp
  have hsj : splitNL (joinNL (p ++ paramsMarker :: r0 :: s2)) =
      p ++ paramsMarker :: r0 :: s2 := splitNL_joinNL _ hDne hDnl
  have hcol : collapseNewlines (joinNL (p ++ paramsMarker :: r0 :: s2)) =
      joinNL (p ++ paramsMarker :: r0 :: s2) := by
    have h1 := collapseGo_joinNL_id (p ++ paramsMarker :: r0 :: s2) 0
      (by omega) hDne hDnl
      (fun l hl => ne_nil_of_not_blank l
        ((hDclean l (mem_dropLast_mem _ l hl)).1))
    simpa [collapseNewlines] using h1
  have hfind : findParamsMarker (p ++ paramsMarker :: r0 :: s2) =
      some (p, paramsMarker, r0 :: s2) :=
    findParamsMarker_eq_some p paramsMarker (r0 :: s2)
      (fun l hl => (hp l hl).2.2.1) (by decide) (by simp)
  have key : ∀ X, stripFieldLines (fc :: ftl) (splitNL X) =
      p ++ paramsMarker :: r0 :: s2 →
      update_hugo_toml_field_text (fc :: ftl) v X =
        Except.ok (joinNL
          (insertIntoParams (fc :: ftl) v p paramsMarker (r0 :: s2))) := by
    intro X hX
    simp only [update_hugo_toml_field_text, hX, hcol, hsj, hfind]
  refine ⟨joinNL (insertIntoParams (fc :: ftl) v p paramsMarker (r0 :: s2)),
    key _ ?_, key _ ?_⟩
  · rw [hsj]
    simp only [stripFieldLines]
    exact stripFieldGo_id (fc :: ftl) _ hDclean
  · have hr0b : isBlankLine r0 = false := (hs r0 (List.mem_cons_self _ _)).2.1
    have hdw : (r0 :: s2).dropWhile isBlankLine = r0 :: s2 := by
      rw [List.dropWhile_cons, if_neg (by simp [hr0b])]
    have htw : (r0 :: s2).takeWhile isBlankLine = [] := by
      rw [List.takeWhile_cons, if_neg (by simp [hr0b])]
    have hIns := insertIntoParams_eq_cons (fc :: ftl) v p paramsMarker
      (r0 :: s2) r0 s2 hdw
    rw [htw, List.nil_append] at hIns
    have hI := indent_choice_ws ((joinNL (r0 :: s2)).take 200)
    have ht := fieldLineText_tail_no_nl fc ftl v hfc hftl
    have hform : fieldLineText
        ((findIndent ((joinNL (r0 :: s2)).take 200)).getD ("  ".toList))
        (fc :: ftl) v =
        ((findIndent ((joinNL (r0 :: s2)).take 200)).getD ("  ".toList)) ++
          ((fc :: ftl) ++ (' ' :: '=' :: ' ' :: tomlString v)) := by
      simp [fieldLineText, List.append_assoc]
    obtain ⟨pre, lw, hT, hpreB, hlwWS⟩ := splitNL_ws_append _
      ((fc :: ftl) ++ (' ' :: '=' :: ' ' :: tomlString v)) hI ht
    rw [hform, hT] at hIns
    have hLeq : (pre ++ [lw ++ ((fc :: ftl) ++ (' ' :: '=' :: ' ' :: tomlString v))])
        ++ r0 :: s2 =
        pre ++ (lw ++ ((fc :: ftl) ++ (' ' :: '=' :: ' ' :: tomlString v)))
          :: r0 :: s2 := by
      simp
    rw [hLeq] at hIns
    have hfl : fieldLineMatches (fc :: ftl)
        (lw ++ ((fc :: ftl) ++ (' ' :: '=' :: ' ' :: tomlString v))) = true := by
      have h2 := fieldLineMatches_inserted fc ftl v lw hfc hlwWS hv
      rw [List.append_assoc] at h2
      exact h2
    have hLnl : ∀ l ∈ p ++ paramsMarker ::
        (pre ++ (lw ++ ((fc :: ftl) ++ (' ' :: '=' :: ' ' :: tomlString v)))
          :: r0 :: s2), '\n' ∉ l := by
      intro l hl
      rcases List.mem_append.mp hl with h | h
      · exact (hp l h).1
      · rcases List.mem_cons.mp h with h2 | h2
        · subst h2
          decide
        · rcases List.mem_append.mp h2 with h3 | h3
          · refine splitNL_no_nl
              (((findIndent ((joinNL (r0 :: s2)).take 200)).getD ("  ".toList)) ++
                ((fc :: ftl) ++ (' ' :: '=' :: ' ' :: tomlString v))) l ?_
            rw [hT]
            exact List.mem_append_left _ h3
          · rcases List.mem_cons.mp h3 with h4 | h4
            · refine splitNL_no_nl
                (((findIndent ((joinNL (r0 :: s2)).take 200)).getD ("  ".toList)) ++
                  ((fc :: ftl) ++ (' ' :: '=' :: ' ' :: tomlString v))) l ?_
              rw [hT, h4]
              exact List.mem_append_right _ (List.mem_cons_self _ _)
            · rcases List.mem_cons.mp h4 with h5 | h5
              · subst h5
                exact (hs l (List.mem_cons_self _ _)).1
              · exact (hs l (List.mem_cons.mpr (Or.inr h5))).1
    have hsout : splitNL (joinNL
        (insertIntoParams (fc :: ftl) v p paramsMarker (r0 :: s2))) =
        p ++ paramsMarker ::
          (pre ++ (lw ++ ((fc :: ftl) ++ (' ' :: '=' :: ' ' :: tomlString v)))
            :: r0 :: s2) := by
      rw [hIns]
      exact splitNL_joinNL _ (by simp) hLnl
    rw [hsout]
    simp only [stripFieldLines]
    have hq : ∀ l ∈ p ++ [paramsMarker],
        isBlankLine l = false ∧ fieldLineMatches (fc :: ftl) l = false := by
      intro l hl
      rcases List.mem_append.mp hl with h | h
      · exact ⟨(hp l h).2.1, (hp l h).2.2.2⟩
      · simp only [List.mem_singleton] at h
        subst h
        exact ⟨by decide, paramsMarker_not_field _⟩
    rw [show p ++ paramsMarker ::
        (pre ++ (lw ++ ((fc :: ftl) ++ (' ' :: '=' :: ' ' :: tomlString v)))
          :: r0 :: s2) =
        (p ++ [paramsMarker]) ++
          (pre ++ (lw ++ ((fc :: ftl) ++ (' ' :: '=' :: ' ' :: tomlString v)))
            :: r0 :: s2) from by simp]
    rw [stripFieldGo_append_clean (fc :: ftl) (p ++ [paramsMarker]) _ hq]
    rw [stripFieldGo_blanks_field (fc :: ftl) _ pre (r0 :: s2) hpreB hfl]
    have hstep2 : stripFieldGo (fc :: ftl) true (r0 :: s2) =
        r0 :: stripFieldGo (fc :: ftl) false s2 := by
      simp only [stripFieldGo, (hs r0 (List.mem_cons_self _ _)).2.2,
                 Bool.false_eq_true, if_false, hr0b]
    rw [hstep2, stripFieldGo_id (fc :: ftl) s2
        (fun l hl => ⟨(hs l (List.mem_cons.mpr (Or.inr hl))).2.1,
          (hs l (List.mem_cons.mpr (Or.inr hl))).2.2⟩)]
    simp

/-- The clean-document idempotence theorem at a concrete instance. -/
theorem field_update_idempotent_witness :
    pyWs 'a' = false ∧ ('a' : Char) ≠ '[' ∧ '\n' ∉ "uthor_city".toList ∧
    '"' ∉ "Paris".toList ∧ '\'' ∉ "Paris".toList ∧
    (∀ l ∈ ([] : List (List Char)), '\n' ∉ l ∧ isBlankLine l = false ∧
      lineHasParamsMarker l = false ∧
      ¬ List.IsInfix ('a' :: "uthor_city".toList) l ∧
      (∀ c ∈ l, isQuoteChar c = false)) ∧
    (∀ l ∈ ["foo = 1".toList], '\n' ∉ l ∧ isBlankLine l = false ∧
      ¬ List.IsInfix ('a' :: "uthor_city".toList) l ∧
      (∀ c ∈ l, isQuoteChar c = false)) ∧
    (["foo = 1".toList] ≠ ([] : List (List Char))) ∧
    (∃ out,
      update_hugo_toml_field_text ('a' :: "uthor_city".toList)
          ("Paris".toList)
          (joinNL ([] ++ paramsMarker :: ["foo = 1".toList])) =
        Except.ok out ∧
      update_hugo_toml_field_text ('a' :: "uthor_city".toList)
          ("Paris".toList) out = Except.ok out) :=
  ⟨by decide, by decide, by decide, by decide, by decide, by simp,
   by decide, by simp,
   field_update_idempotent_on_clean 'a' ("uthor_city".toList)
     ("Paris".toList) [] ["foo = 1".toList]
     (by decide) (by decide) (by decide) (by decide) (by decide) (by simp)
     (by decide) (by simp)⟩
